import Mathlib

/-!
# Verification of `gettext2sheets.py`

A shallow embedding of the core of the gettext ↔ Google Sheets sync tool:
the line classifiers (`RE_ENTRY_FIELD`, `RE_EXTRA_STRING`), the catalog
locator `find_msgid_in_file`, the rewriter `write_updated_entry_to_file`,
whole-file extraction `process_po_file`, spreadsheet addressing
(`get_column_string`, `generate_range_name`, `build_request_body`), the
column mapping `get_column_mapping`, locale derivation `get_locale_by_path`,
and the push / pull drivers (`handle_push`, `pull_by_locale`).

Modelling conventions:
* A file is a `List String` of its lines with the trailing newline removed,
  cursor positions are line indices (every `tell`/`seek` in the source lands
  on a line boundary).  Python's `$` matches just before a trailing newline
  and `readline` never yields a line with an interior newline, so matching
  the bare line against the patterns is equivalent to matching the raw line.
* Python `while` loops become fuel-based recursion; `none` means the fuel ran
  out (theorems below show the fuel bounds used by the wrappers suffice).
* Exceptions (`KeyError`, `IndexError`, `StopIteration`, and the script's own
  `error`) become `Except` values.
* `\s` and `str.strip()` are modelled on the ASCII whitespace characters;
  all inputs of interest are ASCII.
-/

/-- ASCII whitespace, as matched by Python's `\s` and stripped by `str.strip()`. -/
def is_ws (c : Char) : Bool :=
  c == ' ' || c == '\t' || c == '\n' || c == '\r' || c == '\x0b' || c == '\x0c'

/-- Strip whitespace from both ends of a character list (Python `str.strip()`). -/
def str_trim (l : List Char) : List Char :=
  ((l.dropWhile is_ws).reverse.dropWhile is_ws).reverse

/-- Python `line.strip()` on a string. -/
def py_strip (s : String) : String :=
  ⟨str_trim s.data⟩

/--
Search, from candidate position `p` downwards, for the largest `p ≥ 3` such
that `l[p]` is whitespace and `l[p+1]` is a double quote.  This is where the
greedy group `(msg.*)` of `RE_ENTRY_FIELD` ends: the regex backtracks from the
longest prefix, so the split chosen by Python is the largest valid one.
-/
def find_split : List Char → Nat → Option Nat
  | _, 0 => none
  | l, Nat.succ q =>
    if 3 ≤ q + 1 && is_ws (l.getD (q + 1) 'x') && (l.getD (q + 2) 'x' == '"') then
      some (q + 1)
    else
      find_split l q

/--
Matcher for `RE_ENTRY_FIELD = ^(msg.*)\s"(.*)"$` (line 25 of the source),
with Python's greedy capture semantics: the returned pair is
(field name, quoted value).  `none` means the line is not an entry-field line.
-/
def entry_field_match (s : String) : Option (String × String) :=
  let l := s.data
  if l.length < 6 then none
  else if !(l.take 3 == ['m', 's', 'g']) then none
  else if !(l.getLastD 'x' == '"') then none
  else
    match find_split l (l.length - 3) with
    | none => none
    | some p => some (⟨l.take p⟩, ⟨(l.drop (p + 2)).dropLast⟩)

/--
Matcher for `RE_EXTRA_STRING = ^\s*"(.*)"\s*$` (line 26 of the source): after
trimming whitespace from both ends the line must be a quoted string of length
at least 2 (opening and closing quote at distinct positions).
-/
def extra_string_match (s : String) : Bool :=
  let m := str_trim s.data
  match m with
  | [] => false
  | [c] => false && (c == c)
  | c :: _ :: _ => c == '"' && m.getLastD 'x' == '"'

/-- Declarative reading of the source regex `^(msg.*)\s"(.*)"$`:
the line decomposes as `msg`, any characters, one whitespace character,
a quote, any characters, and a final quote. -/
def FieldRegexProp (s : String) : Prop :=
  ∃ (a b : List Char) (w : Char),
    s.data = 'm' :: 's' :: 'g' :: (a ++ w :: '"' :: (b ++ ['"'])) ∧ is_ws w = true

/-- Declarative reading of `^\s*"(.*)"\s*$`: optional whitespace, a quote,
any characters, a quote, optional whitespace. -/
def ExtraRegexProp (s : String) : Prop :=
  ∃ (u b v : List Char),
    s.data = u ++ '"' :: (b ++ '"' :: v) ∧
    (∀ c ∈ u, is_ws c = true) ∧ (∀ c ∈ v, is_ws c = true)

/-- Declarative reading of the spec's claimed pattern `^(msg\S*)\s+"(.*)"$`:
the field name after `msg` contains no whitespace and at least one whitespace
character separates it from the quoted value. -/
def SpecFieldRegexProp (s : String) : Prop :=
  ∃ (a w b : List Char),
    s.data = 'm' :: 's' :: 'g' :: (a ++ w ++ '"' :: (b ++ ['"'])) ∧
    (∀ c ∈ a, is_ws c = false) ∧ w ≠ [] ∧ (∀ c ∈ w, is_ws c = true)

/-- The exceptions a run can raise (all are fatal: the script's `error`
raises a bare `Exception`, and `KeyError` / `IndexError` / `StopIteration`
from the Python runtime propagate uncaught). `fuelOut` is an artifact of the
fuel-based embedding of unbounded loops; the theorems below show it is not
reachable with the fuel bounds used. -/
inductive PErr where
  | entryNotFound
  | keyError
  | indexError
  | templateMismatch
  | ioError
  | configError
  | localeError
  | fuelOut
deriving DecidableEq

/-- Python-dict lookup on an association list. -/
def dict_get {α : Type} (d : List (String × α)) (k : String) : Option α :=
  (d.find? (fun p => p.1 == k)).map (fun p => p.2)

/-- Python-dict assignment: replace the value in place if the key exists,
otherwise append the new pair (insertion order is preserved). -/
def dict_set {α : Type} : List (String × α) → String → α → List (String × α)
  | [], k, v => [(k, v)]
  | (k', v') :: rest, k, v =>
    if k' == k then (k, v) :: rest else (k', v') :: dict_set rest k v

/-- Python-dict deletion (`os.remove` on the file-system model). -/
def dict_remove {α : Type} : List (String × α) → String → List (String × α)
  | [], _ => []
  | (k', v') :: rest, k =>
    if k' == k then rest else (k', v') :: dict_remove rest k

/--
One iteration state of `find_msgid_in_file` (lines 428-475 of the source).
Arguments after the fuel: `wrapped`, `buffered_lines`, `pre_entry_position`,
`reading_an_entry`, and the read cursor (a line index).  On end-of-file the
code wraps around once — note that the empty string returned by `readline`
at EOF still falls through the classification, so the freshly reset buffer
receives one empty line before scanning restarts at position 0.  The `Bool`
in the success value is the final `wrapped` flag (whether the scan wrapped
around before finding the entry).
-/
def fmf_aux (lines : List String) (msgid : String) :
    Nat → Bool → List String → Nat → Bool → Nat →
    Option (Except PErr (Nat × List String × Bool))
  | 0, _, _, _, _, _ => none
  | fuel + 1, wrapped, buffered, pre, reading, pos =>
    if h : pos < lines.length then
      let line := lines.get ⟨pos, h⟩
      match entry_field_match line with
      | some (f, v) =>
        let pre' := if reading then pre else pos
        if f == "msgid" && v == msgid then
          some (.ok (pre', buffered, wrapped))
        else
          fmf_aux lines msgid fuel wrapped buffered pre' true (pos + 1)
      | none =>
        let buffered' := if reading then [] else buffered
        let buffered'' := if extra_string_match line then buffered' else buffered' ++ [line]
        fmf_aux lines msgid fuel wrapped buffered'' pre false (pos + 1)
    else
      if wrapped then
        some (.error .entryNotFound)
      else
        fmf_aux lines msgid fuel true [""] 0 false 0

/-- `find_msgid_in_file`, started with empty buffers from cursor `pos`.
The fuel `2 * length + 2` is enough for the at-most-two passes over the file
plus the two end-of-file events. -/
def find_msgid_in_file (lines : List String) (msgid : String) (pos : Nat) :
    Option (Except PErr (Nat × List String × Bool)) :=
  fmf_aux lines msgid (2 * lines.length + 2) false [] 0 false pos

/-- `find_msgid_in_file` as used by the pull driver: the `wrapped` flag is
internal, and exhausted fuel is mapped to an (unreachable) error. -/
def find_msgid_run (lines : List String) (msgid : String) (pos : Nat) :
    Except PErr (Nat × List String) :=
  match find_msgid_in_file lines msgid pos with
  | none => .error .fuelOut
  | some (.error e) => .error e
  | some (.ok (p, buf, _)) => .ok (p, buf)

/-- Whether a line is an entry-field line whose field is exactly `msgid`
with value `m` — the locator's success condition. -/
def is_msgid_hit (l : String) (m : String) : Bool :=
  match entry_field_match l with
  | some (f, v) => f == "msgid" && v == m
  | none => false

/--
One iteration of `write_updated_entry_to_file` (lines 486-519 of the source).
`row`/`cm` model the `row` and `column_mapping` parameters (`cm = none` is
the header-bootstrap call where every line is copied verbatim).  Reading past
the end of file yields the empty line, which is neither a field nor an extra
string, so the loop stops there — exactly like a blank line inside the file.
The result is the final read position (the loop seeks back to the start of
the line that stopped it) together with the lines written.
-/
def wue_aux (lines : List String) (row : List String)
    (cm : Option (List (String × Nat))) :
    Nat → Nat → List String → Option (Except PErr (Nat × List String))
  | 0, _, _ => none
  | fuel + 1, pos, out =>
    let line := lines.getD pos ""
    match entry_field_match line with
    | some (f, _v) =>
      match cm with
      | some m =>
        match dict_get m f with
        | none => some (.error .keyError)
        | some i =>
          match row.get? i with
          | none => some (.error .indexError)
          | some newv =>
            wue_aux lines row cm fuel (pos + 1) (out ++ [f ++ " \"" ++ newv ++ "\""])
      | none => wue_aux lines row cm fuel (pos + 1) (out ++ [line])
    | none =>
      if extra_string_match line then
        wue_aux lines row cm fuel (pos + 1) (out ++ [line])
      else
        some (.ok (pos, out))

/-- `write_updated_entry_to_file`: rewrite the entry that starts at read
position `pos`.  Fuel `length + 1` always suffices (the cursor only moves
forward and the loop stops at end of file at the latest). -/
def write_updated_entry_to_file (lines : List String) (row : List String)
    (cm : Option (List (String × Nat))) (pos : Nat) :
    Option (Except PErr (Nat × List String)) :=
  wue_aux lines row cm (lines.length + 1) pos []

/-- The rewriter as used by the pull driver. -/
def write_updated_run (lines : List String) (row : List String)
    (cm : Option (List (String × Nat))) (pos : Nat) :
    Except PErr (Nat × List String) :=
  match write_updated_entry_to_file lines row cm pos with
  | none => .error .fuelOut
  | some r => r

/-- A translation entry: field name → value, in source order
(Python dict with string keys built by `process_po_file`). -/
abbrev POEntry := List (String × String)

/--
The scanning loop of `process_po_file` (lines 153-185).  Each line is
`strip()`ped before classification; a repeated field name flushes the
current entry (kept only if some value is non-empty); at end of file the
current entry is appended whenever it is non-empty as a dict — with no check
on its values.
-/
def ppf_aux : List String → POEntry → List POEntry → List POEntry
  | [], entry, acc => if entry.isEmpty then acc else acc ++ [entry]
  | line :: rest, entry, acc =>
    match entry_field_match (py_strip line) with
    | some (f, v) =>
      if entry.any (fun p => p.1 == f) then
        let acc' := if entry.any (fun p => !(p.2 == "")) then acc ++ [entry] else acc
        ppf_aux rest [(f, v)] acc'
      else
        ppf_aux rest (entry ++ [(f, v)]) acc
    | none => ppf_aux rest entry acc

/-- `process_po_file`: extract the entry list from a catalog's lines. -/
def process_po_file (lines : List String) : List POEntry :=
  ppf_aux lines [] []

/-- Digits of `get_column_string` (lines 233-240), least significant first:
`while n > 0: n, offset = divmod(n-1, 26); chars.append(chr(ord('A')+offset))`.
The fuel argument only needs to be at least `n` since `n` strictly decreases. -/
def gcs_aux : Nat → Nat → List Char
  | 0, _ => []
  | fuel + 1, n =>
    if n = 0 then []
    else Char.ofNat (65 + (n - 1) % 26) :: gcs_aux fuel ((n - 1) / 26)

/-- `get_column_string`: 1-based column index to bijective base-26 letters. -/
def get_column_string (n : Nat) : String :=
  ⟨(gcs_aux n n).reverse⟩

/-- Modelled from the spec: the reverse index computation `columnIndexOf`
used in the claimed round-trip property (`A = 1, ..., Z = 26`, most
significant letter first).  It does not appear in the source. -/
def column_index_of (s : String) : Nat :=
  s.data.foldl (fun acc c => acc * 26 + (c.toNat - 64)) 0

/-- `generate_range_name` (lines 242-243): `"{sheet}!{c1}{r1}:{c2}{r2}"`.
Row numbers are Python ints, hence `Int`. -/
def generate_range_name (sheet : String) (row_start row_end : Int)
    (column_start column_end : String) : String :=
  sheet ++ "!" ++ column_start ++ toString row_start ++ ":"
        ++ column_end ++ toString row_end

/-- A column descriptor from `config.json`: a `header`, and optionally a
`fields` list (field-backed column) and/or a `static` template.  The source
reads these keys from a JSON dict, so each is optional and both may be
present. -/
structure Column where
  header : String
  fields : Option (List String) := none
  static : Option String := none
deriving DecidableEq

/-- Per-locale settings from `config.json`. -/
structure LocaleSettings where
  sheet : String
  row_offset : Int
  column_offset : Int
  columns : List Column
deriving DecidableEq

/-- One segment of a static template: a literal character, or a `{name}`
placeholder (`RE_ASSIGN = {([a-zA-Z_-]+)}`). -/
inductive TSeg where
  | lit (c : Char)
  | var (name : String)
deriving DecidableEq

/-- A character allowed in a placeholder name: `[a-zA-Z_-]`. -/
def tmpl_name_char (c : Char) : Bool :=
  c.isAlpha || c == '_' || c == '-'

/-- Parse a template into segments, scanning left to right exactly as
`re.sub`/`re.finditer` would find non-overlapping `{name}` matches. -/
def parse_template_aux : Nat → List Char → List TSeg
  | 0, _ => []
  | _, [] => []
  | fuel + 1, c :: rest =>
    if c == '{' then
      let run := rest.takeWhile tmpl_name_char
      if run.isEmpty then
        TSeg.lit c :: parse_template_aux fuel rest
      else
        match rest.drop run.length with
        | '}' :: rest2 => TSeg.var ⟨run⟩ :: parse_template_aux fuel rest2
        | _ => TSeg.lit c :: parse_template_aux fuel rest
    else
      TSeg.lit c :: parse_template_aux fuel rest

def parse_template (s : String) : List TSeg :=
  parse_template_aux s.data.length s.data

/-- Render a template with metadata (`parse_static_text`, lines 226-231):
each `{name}` is replaced by `metadata.get(name, "")`. -/
def render_template (md : List (String × String)) : List TSeg → List Char
  | [] => []
  | TSeg.lit c :: rest => c :: render_template md rest
  | TSeg.var n :: rest => ((dict_get md n).getD "").data ++ render_template md rest

def parse_static_text (static_text : String) (md : List (String × String)) : String :=
  ⟨render_template md (parse_template static_text)⟩

/-- Substring test (Python's `in` on strings). -/
def substr_aux (t : List Char) : List Char → Bool
  | [] => t.isEmpty
  | c :: rest => t.isPrefixOf (c :: rest) || substr_aux t rest

def contains_substr (s t : String) : Bool :=
  substr_aux t.data s.data

/-- First field of `eligible_fields` present in the entry, else `""`
(the loop inside `populate_column`). -/
def pick_field : List String → POEntry → String
  | [], _ => ""
  | f :: rest, entry =>
    match dict_get entry f with
    | some v => v
    | none => pick_field rest entry

/-- `populate_column` (lines 214-224): a non-empty `static` template wins
(`if static_text:` is a truthiness test), otherwise the `fields` key is read
(`KeyError` if absent) and the first field present in the entry is used. -/
def populate_column (column : Column) (entry : POEntry)
    (md : List (String × String)) : Except PErr String :=
  if (column.static.getD "") ≠ "" then
    .ok (parse_static_text (column.static.getD "") md)
  else
    match column.fields with
    | none => .error .keyError
    | some fl => .ok (pick_field fl entry)

/-- `build_request_entry` (lines 210-212). -/
def build_request_entry (columns : List Column) (entry : POEntry)
    (md : List (String × String)) : Except PErr (List String) :=
  match columns with
  | [] => .ok []
  | c :: rest =>
    match populate_column c entry md with
    | .error e => .error e
    | .ok v =>
      match build_request_entry rest entry md with
      | .error e => .error e
      | .ok vs => .ok (v :: vs)

def build_request_rows (columns : List Column) (md : List (String × String)) :
    List POEntry → Except PErr (List (List String))
  | [] => .ok []
  | e :: rest =>
    match build_request_entry columns e md with
    | .error err => .error err
    | .ok v =>
      match build_request_rows columns md rest with
      | .error err => .error err
      | .ok vs => .ok (v :: vs)

/-- `build_request_body` (lines 187-208): compute the range string and the
value matrix (a header row first when `print_header`). -/
def build_request_body (settings : LocaleSettings) (entries : List POEntry)
    (row_offset : Int) (print_header : Bool) (md : List (String × String)) :
    Except PErr (String × List (List String)) :=
  let columns := settings.columns
  let entry_count : Int := entries.length
  let row_start : Int := 1 + row_offset
  let row_end : Int := row_start + entry_count - 1 + (if print_header then 1 else 0)
  let column_start := get_column_string (1 + settings.column_offset).toNat
  let column_end := get_column_string (1 + settings.column_offset + columns.length - 1).toNat
  let range_name := generate_range_name settings.sheet row_start row_end column_start column_end
  let headers := if print_header then [columns.map (fun c => c.header)] else []
  match build_request_rows columns md entries with
  | .error e => .error e
  | .ok rows => .ok (range_name, headers ++ rows)

/-- The loop of `get_column_mapping` (lines 333-358): `i` is the current
column index; a column with a `fields` key registers every field at index
`i` and `continue`s (its `static` key, if any, is never examined); otherwise
a `static` template containing `{file_name}` registers the reserved key. -/
def gcm_aux : List Column → Nat → List (String × Nat) → Bool →
    (List (String × Nat) × Bool)
  | [], _, ret, found => (ret, found)
  | c :: cs, i, ret, found =>
    match c.fields with
    | some fl => gcm_aux cs (i + 1) (fl.foldl (fun d f => dict_set d f i) ret) found
    | none =>
      match c.static with
      | some s =>
        if contains_substr s "\x7bfile_name\x7d" then
          gcm_aux cs (i + 1) (dict_set ret "_file_name" i) true
        else
          gcm_aux cs (i + 1) ret found
      | none => gcm_aux cs (i + 1) ret found

/-- `get_column_mapping`: fails (the script's `error`, a raised exception)
when no column registered the file-name placeholder. -/
def get_column_mapping (columns : List Column) : Except PErr (List (String × Nat)) :=
  let r := gcm_aux columns 0 [] false
  if r.2 then .ok r.1 else .error .configError

/-- A character of the locale group in `RE_LC_MESSAGES = /([a-zA-Z-]+)/LC_MESSAGES`. -/
def locale_char (c : Char) : Bool :=
  c.isAlpha || c == '-'

/-- Try to match `RE_LC_MESSAGES` at the start of this suffix: a slash, a
non-empty run of `[a-zA-Z-]`, then the literal `/LC_MESSAGES`.  Since the
run's characters cannot be `/`, the greedy group is forced to the maximal run. -/
def lc_match_at : List Char → Option String
  | [] => none
  | c :: rest =>
    if c = '/' then
      if (rest.takeWhile locale_char).isEmpty then none
      else if ("/LC_MESSAGES".data).isPrefixOf
          (rest.drop (rest.takeWhile locale_char).length) then
        some ⟨rest.takeWhile locale_char⟩
      else none
    else none

/-- `re.search`: leftmost match of `RE_LC_MESSAGES`. -/
def lc_search : List Char → Option String
  | [] => none
  | c :: rest =>
    match lc_match_at (c :: rest) with
    | some x => some x
    | none => lc_search rest

/-- `get_locale_by_path` (lines 141-151): the regex search, with a failed
search turned into the script's fatal `error` (the `except` block calls
`error`, which raises). -/
def get_locale_by_path (p : String) : Except PErr String :=
  match lc_search p.data with
  | some x => .ok x
  | none => .error .localeError

/-- Split a path on `/` (used only to state the claim about "the path
segment immediately preceding `LC_MESSAGES`"). -/
def split_slash : List Char → List (List Char)
  | [] => [[]]
  | c :: rest =>
    if c == '/' then [] :: split_slash rest
    else
      match split_slash rest with
      | [] => [[c]]
      | seg :: segs => (c :: seg) :: segs

/-- Modelled from the claim's words: the path segment immediately preceding
a segment named `LC_MESSAGES`. -/
def segment_before_lc : List (List Char) → Option (List Char)
  | x :: y :: rest =>
    if y = "LC_MESSAGES".data then some x else segment_before_lc (y :: rest)
  | _ => none

/-- The file name of a path (`posix_path.name`): its last `/`-segment. -/
def base_name (p : String) : String :=
  ⟨(split_slash p.data).getLastD []⟩

/-- Greedy matching of a `(?P<name>.*)` capture: try the longest newline-free
capture first, exactly like the regex engine's backtracking, with `k` the
candidate capture length and `f` the matcher for the remaining segments. -/
def var_loop (f : List Char → Option (List (String × String)))
    (n : String) (xs : List Char) :
    Nat → Option (List (String × String))
  | 0 => (f xs).map (fun as => (n, "") :: as)
  | k + 1 =>
    match f (xs.drop (k + 1)) with
    | some as => some ((n, ⟨xs.take (k + 1)⟩) :: as)
    | none => var_loop f n xs k

/-- Match a segment list (the reverse template, literal characters plus
greedy named captures) at the start of `xs`; the pattern is unanchored, so
trailing input may remain. -/
def match_segs : List TSeg → List Char → Option (List (String × String))
  | [], _ => some []
  | TSeg.lit _ :: _, [] => none
  | TSeg.lit c :: rest, x :: xs =>
    if x == c then match_segs rest xs else none
  | TSeg.var n :: rest, xs =>
    var_loop (match_segs rest) n xs (xs.takeWhile (fun c => !(c == '\n'))).length

/-- `re.finditer`'s first match: try every start offset left to right. -/
def find_iter (segs : List TSeg) : List Char → Option (List (String × String))
  | [] => match_segs segs []
  | x :: t =>
    match match_segs segs (x :: t) with
    | some as => some as
    | none => find_iter segs t

/-- `extract_string_assigns` (lines 402-413): invert the template against the
observed string; `none` is the `StopIteration` raised by `next()` when the
reverse template matches nowhere. -/
def extract_string_assigns (template : String) (s : String) :
    Option (List (String × String)) :=
  find_iter (parse_template template) s.data

/-- A cursor pair for one catalog file during pull: the (immutable) lines of
the original file, the read cursor, and the lines written so far to the
`.tmp` sibling (flushed to the file-system model when the handle is closed). -/
structure Handles where
  readLines : List String
  readPos : Nat
  writeBuf : List String
deriving DecidableEq

/-- The file-system model: path → lines. -/
abbrev FileSys := List (String × List String)

/-- `open_handle_pair` (lines 415-426): open the original for reading,
create the empty `.tmp` sibling, locate the header entry (empty msgid),
copy its preceding context and the header entry itself verbatim.  Errors
carry the file system as mutated so far. -/
def open_handle_pair (fs : FileSys) (target : String) :
    Except (PErr × FileSys) (FileSys × Handles) :=
  match dict_get fs target with
  | none => .error (.ioError, fs)
  | some content =>
    let fs1 := dict_set fs (target ++ ".tmp") []
    match find_msgid_run content "" 0 with
    | .error e => .error (e, fs1)
    | .ok (pre, buffered) =>
      match write_updated_run content [] none pre with
      | .error e => .error (e, fs1)
      | .ok (pos', written) =>
        .ok (fs1, ⟨content, pos', buffered ++ written⟩)

/-- The row loop of `process_chunk` (lines 369-400): skip blank rows; derive
the target file from the file-name cell by reverse-template extraction; open
the cursor pair on first touch; locate the row's msgid and rewrite the entry. -/
def process_rows (pathMap : List (String × String)) (cm : List (String × Nat))
    (template : String) (fnc mc : Nat) :
    List (List String) → FileSys → List (String × Handles) →
    Except (PErr × FileSys) (FileSys × List (String × Handles))
  | [], fs, hm => .ok (fs, hm)
  | row :: rest, fs, hm =>
    if row.any (fun c => !(c == "")) then
      match row.get? fnc with
      | none => .error (.indexError, fs)
      | some cell =>
        match extract_string_assigns template cell with
        | none => .error (.templateMismatch, fs)
        | some assigns =>
          match dict_get assigns "file_name" with
          | none => .error (.keyError, fs)
          | some base =>
            match dict_get pathMap base with
            | none => .error (.keyError, fs)
            | some target =>
              let opened : Except (PErr × FileSys) (FileSys × Handles) :=
                match dict_get hm base with
                | some h => .ok (fs, h)
                | none => open_handle_pair fs target
              match opened with
              | .error e => .error e
              | .ok (fs', h) =>
                match row.get? mc with
                | none => .error (.indexError, fs')
                | some target_msgid =>
                  match find_msgid_run h.readLines target_msgid h.readPos with
                  | .error e => .error (e, fs')
                  | .ok (pre, buffered) =>
                    match write_updated_run h.readLines row (some cm) pre with
                    | .error e => .error (e, fs')
                    | .ok (pos', written) =>
                      let h2 : Handles :=
                        ⟨h.readLines, pos', h.writeBuf ++ buffered ++ written⟩
                      process_rows pathMap cm template fnc mc rest fs'
                        (dict_set hm base h2)
    else
      process_rows pathMap cm template fnc mc rest fs hm

/-- `process_chunk` (lines 369-400): the two mapping lookups happen before
the row loop (`KeyError` when the mapping lacks `msgid`). -/
def process_chunk (pathMap : List (String × String)) (cm : List (String × Nat))
    (template : String) (data : List (List String)) (fs : FileSys)
    (hm : List (String × Handles)) :
    Except (PErr × FileSys) (FileSys × List (String × Handles)) :=
  match dict_get cm "_file_name" with
  | none => .error (.keyError, fs)
  | some fnc =>
    match dict_get cm "msgid" with
    | none => .error (.keyError, fs)
    | some mc => process_rows pathMap cm template fnc mc data fs hm

/-- The chunked fetch loop of `pull_by_locale` (lines 299-311): fetch rows
for the current range; a chunk with zero rows (including an absent `values`
key) breaks the loop; otherwise process it and advance.  `sheetData` is the
abstract spreadsheet service (`none` models an absent `values` key). -/
def pull_loop (pathMap : List (String × String)) (cm : List (String × Nat))
    (template : String) (sheet : String) (chunk_size : Nat)
    (column_start column_end : String)
    (sheetData : String → Option (List (List String))) :
    Nat → Int → FileSys → List (String × Handles) →
    (Except PErr Unit) × FileSys × List (String × Handles)
  | 0, _, fs, hm => (.error .fuelOut, fs, hm)
  | fuel + 1, row_start, fs, hm =>
    let row_end : Int := row_start + (chunk_size : Int) - 1
    let range_name := generate_range_name sheet row_start row_end column_start column_end
    let data := (sheetData range_name).getD []
    if data.length = 0 then
      (.ok (), fs, hm)
    else
      match process_chunk pathMap cm template data fs hm with
      | .error (e, fs') => (.error e, fs', hm)
      | .ok (fs', hm') =>
        pull_loop pathMap cm template sheet chunk_size column_start column_end
          sheetData fuel (row_end + 1) fs' hm'

/-- The cleanup loop of `pull_by_locale` (lines 315-328): for each open
cursor pair, close the write handle (flushing its buffer into the `.tmp`
file), remove a stale `.old` sibling if present, rotate the original to
`.old`, and promote the `.tmp` file over the original. -/
def promote_all (pathMap : List (String × String)) :
    List (String × Handles) → FileSys → Except (PErr × FileSys) FileSys
  | [], fs => .ok fs
  | (name, h) :: rest, fs =>
    match dict_get pathMap name with
    | none => .error (.keyError, fs)
    | some full =>
      let fs1 := dict_set fs (full ++ ".tmp") h.writeBuf
      let fs2 := dict_remove fs1 (full ++ ".old")
      match dict_get fs2 full with
      | none => .error (.ioError, fs2)
      | some orig =>
        let fs3 := dict_set (dict_remove fs2 full) (full ++ ".old") orig
        match dict_get fs3 (full ++ ".tmp") with
        | none => .error (.ioError, fs3)
        | some tmpc =>
          let fs4 := dict_set (dict_remove fs3 (full ++ ".tmp")) full tmpc
          promote_all pathMap rest fs4

/-- `pull_by_locale` (lines 281-330): compute the column mapping and the
file-name template, fetch and process chunks until one is empty, then close
and promote every open cursor pair.  The result is the final outcome paired
with the resulting file system; on an error the promotion loop never runs. -/
def pull_by_locale (chunk_size : Nat) (settings : LocaleSettings)
    (pathMap : List (String × String))
    (sheetData : String → Option (List (List String)))
    (fs : FileSys) (fuel : Nat) : (Except PErr Unit) × FileSys :=
  let row_start : Int := 1 + settings.row_offset + 1
  let columns := settings.columns
  let column_start := get_column_string (1 + settings.column_offset).toNat
  let column_end := get_column_string (1 + settings.column_offset + columns.length - 1).toNat
  match get_column_mapping columns with
  | .error _ => (.error .configError, fs)
  | .ok cm =>
    match dict_get cm "_file_name" with
    | none => (.error .keyError, fs)
    | some fnc =>
      match columns.get? fnc with
      | none => (.error .indexError, fs)
      | some col =>
        match col.static with
        | none => (.error .keyError, fs)
        | some template =>
          match pull_loop pathMap cm template settings.sheet chunk_size
              column_start column_end sheetData fuel row_start fs [] with
          | (.ok (), fs', hm') =>
            match promote_all pathMap hm' fs' with
            | .ok fs'' => (.ok (), fs'')
            | .error (e, fs'') => (.error e, fs'')
          | (.error e, fs', _) => (.error e, fs')

/-- The per-file loop of `handle_push` (lines 105-139): derive the locale
(a failure aborts the run), read and extract the file, skip locales missing
from the configuration, build the request and send it (`service` abstracts
`update_sheet` and returns the updated-row count), and accumulate the
per-locale row offset.  The second component collects the requests issued,
in order. -/
def push_files (cfg : List (String × LocaleSettings))
    (service : String → List (List String) → Nat) (fs : FileSys) (ts : String) :
    List String → List (String × Int) → List (String × List (List String)) →
    (Except PErr Unit) × List (String × List (List String))
  | [], _, reqs => (.ok (), reqs)
  | f :: rest, offs, reqs =>
    match get_locale_by_path f with
    | .error _ => (.error .localeError, reqs)
    | .ok locale =>
      match dict_get fs f with
      | none => (.error .ioError, reqs)
      | some lines =>
        let entries := process_po_file lines
        match dict_get cfg locale with
        | none => push_files cfg service fs ts rest offs reqs
        | some settings =>
          let print_header := (dict_get offs locale).isNone
          let row_offset := (dict_get offs locale).getD settings.row_offset
          let md := [("file_name", base_name f), ("locale", locale), ("timestamp", ts)]
          match build_request_body settings entries row_offset print_header md with
          | .error e => (.error e, reqs)
          | .ok (range_name, body) =>
            let updated := service range_name body
            push_files cfg service fs ts rest
              (dict_set offs locale (row_offset + updated))
              (reqs ++ [(range_name, body)])

/-- `handle_push`: process the file list with empty offsets. -/
def handle_push (cfg : List (String × LocaleSettings))
    (service : String → List (List String) → Nat) (fs : FileSys) (ts : String)
    (files : List String) :
    (Except PErr Unit) × List (String × List (List String)) :=
  push_files cfg service fs ts files [] []


/-- A line consumed by the rewriter's loop: an entry-field line or a bare
continuation-string line. -/
def line_in_block (l : String) : Bool :=
  (entry_field_match l).isSome || extra_string_match l

/-- The line the rewriter emits for one consumed line: an entry-field line
becomes `field "row[cm[field]]"`, any other consumed line is copied verbatim. -/
def emit_line (row : List String) (cm : List (String × Nat)) (l : String) : String :=
  match entry_field_match l with
  | some (f, _) =>
    match dict_get cm f with
    | some i => f ++ " \"" ++ row.getD i "" ++ "\""
    | none => l
  | none => l

/-- Whether a line is safe for the rewriter: an entry-field line must have
its field in the column mapping with an index inside the row. -/
def field_mapped (row : List String) (cm : List (String × Nat)) (l : String) : Bool :=
  match entry_field_match l with
  | some (f, _) =>
    match dict_get cm f with
    | some i => decide (i < row.length)
    | none => false
  | none => true

/-- Declarative reading of a successful `RE_LC_MESSAGES` search: somewhere in
the path there is a `/`, a non-empty run of `[a-zA-Z-]` characters, and the
literal `/LC_MESSAGES`. -/
def LcMatchProp (p : String) : Prop :=
  ∃ (pre X post : List Char),
    p.data = pre ++ '/' :: (X ++ ("/LC_MESSAGES".data ++ post)) ∧
    X ≠ [] ∧ ∀ c ∈ X, locale_char c = true

/-- Declarative reading of the value returned by a successful
`RE_LC_MESSAGES` search: `X` is the non-empty `[a-zA-Z-]` run of the
leftmost `/X/LC_MESSAGES` match (no suffix starting earlier in the path
matches the pattern). -/
def LcValueProp (p : String) (X : String) : Prop :=
  ∃ (pre post : List Char),
    p.data = pre ++ '/' :: (X.data ++ ("/LC_MESSAGES".data ++ post)) ∧
    X.data ≠ [] ∧ (∀ c ∈ X.data, locale_char c = true) ∧
    ∀ (pre' suf' : List Char), p.data = pre' ++ suf' →
      pre'.length < pre.length → lc_match_at suf' = none

/-- The success property of the column mapping: the reserved `_file_name`
key points at a column whose static template contains the placeholder. -/
def fn_key_ok (cols : List Column) (ret : List (String × Nat)) : Prop :=
  ∃ i c s, dict_get ret "_file_name" = some i ∧ cols[i]? = some c ∧
    c.static = some s ∧ contains_substr s "\x7bfile_name\x7d" = true

/-- Whether a path names a temporary sibling file (ends in `.tmp`). -/
def tmp_name (n : String) : Bool :=
  (".tmp".data).isSuffixOf n.data

/-- `fs'` agrees with `fs` on every non-temporary path: originals untouched,
no `.old` rotation performed, nothing renamed over an original. -/
def nta (fs fs' : FileSys) : Prop :=
  ∀ n, tmp_name n = false → dict_get fs' n = dict_get fs n

/-- The file system carried by a chunk-processing outcome (both the error
and the success constructor carry the file system as mutated so far). -/
def result_fs (r : Except (PErr × FileSys) (FileSys × List (String × Handles))) :
    FileSys :=
  match r with
  | .error (_, fs) => fs
  | .ok (fs, _) => fs

deriving instance DecidableEq for Except

/-! ## Helper lemmas -/

theorem char_digit_toNat (d : Nat) (h : d < 26) :
    (Char.ofNat (65 + d)).toNat = 65 + d := by
  interval_cases d <;> rfl

theorem gcs_aux_foldl (f : Nat) : ∀ n acc, n ≤ f →
    ((gcs_aux f n).reverse).foldl (fun a c => a * 26 + (c.toNat - 64)) acc
      = acc * 26 ^ (gcs_aux f n).length + n := by
  induction f with
  | zero =>
    intro n acc h
    interval_cases n
    simp [gcs_aux]
  | succ f ih =>
    intro n acc h
    by_cases hn : n = 0
    · subst hn; simp [gcs_aux]
    · have hstep : gcs_aux (f + 1) n
          = Char.ofNat (65 + (n - 1) % 26) :: gcs_aux f ((n - 1) / 26) := by
        simp [gcs_aux, hn]
      have hle : (n - 1) / 26 ≤ f :=
        le_trans (Nat.div_le_self _ _) (by omega)
      rw [hstep]
      simp only [List.reverse_cons, List.foldl_append, List.length_cons, List.foldl_cons,
        List.foldl_nil]
      rw [ih _ acc hle]
      rw [char_digit_toNat _ (Nat.mod_lt _ (by omega))]
      rw [pow_succ, ← mul_assoc]
      have hdm := Nat.div_add_mod (n - 1) 26
      generalize acc * 26 ^ (gcs_aux f ((n - 1) / 26)).length = C
      omega

/-! ## C6 — `get_column_string` bijective base-26 conversion -/

/-- C6: `get_column_string` maps 1-based indices to bijective base-26 letter
notation (1→A, 26→Z, 27→AA, 52→AZ, 53→BA), and the round-trip with the
reverse index computation `column_index_of` is the identity on all valid
(positive) indices, hence the conversion is injective there. -/
theorem c6_get_column_string_roundtrip :
    (get_column_string 1 = "A" ∧ get_column_string 26 = "Z" ∧
     get_column_string 27 = "AA" ∧ get_column_string 52 = "AZ" ∧
     get_column_string 53 = "BA") ∧
    (∀ n : Nat, 0 < n → column_index_of (get_column_string n) = n) ∧
    (∀ m n : Nat, 0 < m → 0 < n →
      get_column_string m = get_column_string n → m = n) := by
  have hrt : ∀ n : Nat, column_index_of (get_column_string n) = n := by
    intro n
    have := gcs_aux_foldl n n 0 (le_refl n)
    simpa [column_index_of, get_column_string] using this
  refine ⟨by decide, fun n _ => hrt n, fun m n _ _ h => ?_⟩
  have := hrt m
  rw [h, hrt n] at this
  exact this.symm

/-- Witness for C6: the round-trip at the concrete index 53. -/
theorem c6_get_column_string_roundtrip_witness :
    0 < 53 ∧ column_index_of (get_column_string 53) = 53 :=
  ⟨by decide, c6_get_column_string_roundtrip.2.1 53 (by decide)⟩

/-! ## C4 — `process_po_file` keep/discard discipline -/

theorem ppf_aux_dropLast_nonempty_value :
    ∀ (lines : List String) (entry : POEntry) (acc : List POEntry),
      (∀ e ∈ acc, e.any (fun p => !(p.2 == "")) = true) →
      ∀ e ∈ (ppf_aux lines entry acc).dropLast, e.any (fun p => !(p.2 == "")) = true := by
  intro lines
  induction lines with
  | nil =>
    intro entry acc hacc e he
    simp only [ppf_aux] at he
    split_ifs at he
    · exact hacc e (List.dropLast_subset _ he)
    · rw [List.dropLast_concat] at he
      exact hacc e he
  | cons line rest ih =>
    intro entry acc hacc e he
    rcases hm : entry_field_match (py_strip line) with _ | ⟨f, v⟩
    · simp only [ppf_aux, hm] at he
      exact ih entry acc hacc e he
    · simp only [ppf_aux, hm] at he
      split_ifs at he with hdup hval
      · refine ih _ _ ?_ e he
        intro e' he'
        rcases List.mem_append.mp he' with h | h
        · exact hacc e' h
        · simp only [List.mem_singleton] at h
          exact h ▸ hval
      · exact ih _ _ hacc e he
      · exact ih _ _ hacc e he

theorem ppf_aux_entries_nonempty :
    ∀ (lines : List String) (entry : POEntry) (acc : List POEntry),
      (∀ e ∈ acc, e ≠ []) → ∀ e ∈ ppf_aux lines entry acc, e ≠ [] := by
  intro lines
  induction lines with
  | nil =>
    intro entry acc hacc e he
    simp only [ppf_aux] at he
    split_ifs at he with hE
    · exact hacc e he
    · rcases List.mem_append.mp he with h | h
      · exact hacc e h
      · simp only [List.mem_singleton] at h
        subst h
        simpa [List.isEmpty_iff] using hE
  | cons line rest ih =>
    intro entry acc hacc e he
    rcases hm : entry_field_match (py_strip line) with _ | ⟨f, v⟩
    · simp only [ppf_aux, hm] at he
      exact ih entry acc hacc e he
    · simp only [ppf_aux, hm] at he
      split_ifs at he with hdup hval
      · refine ih _ _ ?_ e he
        intro e' he'
        rcases List.mem_append.mp he' with h | h
        · exact hacc e' h
        · simp only [List.mem_singleton] at h
          subst h
          intro hnil
          rw [hnil] at hdup
          simp at hdup
      · exact ih _ _ hacc e he
      · exact ih _ _ hacc e he

/-- C4 (counterexample): a catalog consisting only of the header entry — all
field values empty — is NOT discarded: `process_po_file` keeps the final
entry closed by end-of-file without checking its values (line 180 of the
source tests only `if entry:`), contradicting the claim that every
accumulated all-empty entry, including the final one, is discarded. -/
theorem c4_counterexample_header_only_kept :
    process_po_file ["msgid \"\"", "msgstr \"\""]
      = [[("msgid", ""), ("msgstr", "")]] ∧
    ∀ p ∈ [("msgid", ""), ("msgstr", "")], p.2 = "" :=
  ⟨by decide, by decide⟩

/-- C4 (amended): entries flushed mid-scan by a repeated field name are kept
only if some value is non-empty, so every returned entry except possibly the
last has a non-empty value; the final entry closed by end-of-file is kept
whenever it has at least one field, even if all its values are empty (so
every returned entry is a non-empty mapping, but only the last may be
all-empty). -/
theorem c4_amended_kept_entries :
    ∀ lines : List String,
      (∀ e ∈ (process_po_file lines).dropLast,
        e.any (fun p => !(p.2 == "")) = true) ∧
      (∀ e ∈ process_po_file lines, e ≠ []) := by
  intro lines
  exact ⟨ppf_aux_dropLast_nonempty_value lines [] [] (by simp),
         ppf_aux_entries_nonempty lines [] [] (by simp)⟩

/-- Witness for C4 (amended): on a concrete catalog whose header is followed
by a second entry, the kept first entry has a non-empty value. -/
theorem c4_amended_kept_entries_witness :
    [("msgid", "a"), ("msgstr", "x")].any (fun p => !(p.2 == "")) = true :=
  (c4_amended_kept_entries
      ["msgid \"a\"", "msgstr \"x\"", "msgid \"b\""]).1
    [("msgid", "a"), ("msgstr", "x")] (by decide)

/-! ## C1 lemmas: locator wraparound and termination -/

theorem fmf_aux_ne_none :
    ∀ (fuel : Nat) (lines : List String) (msgid : String) (wrapped : Bool)
      (buffered : List String) (pre : Nat) (reading : Bool) (pos : Nat),
      pos ≤ lines.length →
      (if wrapped then lines.length - pos + 1 else 2 * lines.length - pos + 2) ≤ fuel →
      fmf_aux lines msgid fuel wrapped buffered pre reading pos ≠ none := by
  intro fuel
  induction fuel with
  | zero =>
    intro lines msgid wrapped buffered pre reading pos hpos hle
    split_ifs at hle <;> omega
  | succ fuel ih =>
    intro lines msgid wrapped buffered pre reading pos hpos hle
    by_cases hp : pos < lines.length
    · simp only [fmf_aux, dif_pos hp]
      rcases hm : entry_field_match (lines.get ⟨pos, hp⟩) with _ | ⟨f, v⟩
      · simp only [hm]
        apply ih
        · omega
        · split_ifs at hle ⊢ <;> omega
      · simp only [hm]
        by_cases hhit : (f == "msgid" && v == msgid) = true
        · simp [hhit]
        · simp only [hhit, if_false]
          apply ih
          · omega
          · split_ifs at hle ⊢ <;> omega
    · simp only [fmf_aux, dif_neg hp]
      by_cases hw : wrapped
      · simp [hw]
      · simp only [hw, if_false]
        apply ih
        · omega
        · (split_ifs at hle; simp; omega)

theorem fmf_aux_no_hit_no_ok :
    ∀ (fuel : Nat) (lines : List String) (msgid : String),
      (∀ l ∈ lines, is_msgid_hit l msgid = false) →
      ∀ (wrapped : Bool) (buffered : List String) (pre : Nat) (reading : Bool)
        (pos : Nat) (r : Nat × List String × Bool),
        fmf_aux lines msgid fuel wrapped buffered pre reading pos ≠ some (.ok r) := by
  intro fuel
  induction fuel with
  | zero =>
    intro lines msgid hno wrapped buffered pre reading pos r
    simp [fmf_aux]
  | succ fuel ih =>
    intro lines msgid hno wrapped buffered pre reading pos r
    by_cases hp : pos < lines.length
    · simp only [fmf_aux, dif_pos hp]
      rcases hm : entry_field_match (lines.get ⟨pos, hp⟩) with _ | ⟨f, v⟩
      · simp only [hm]
        exact ih lines msgid hno _ _ _ _ _ r
      · simp only [hm]
        by_cases hhit : (f == "msgid" && v == msgid) = true
        · exfalso
          have hmem := List.get_mem lines pos hp
          have := hno _ hmem
          simp only [is_msgid_hit, hm] at this
          rw [hhit] at this
          exact Bool.noConfusion this
        · simp only [hhit, if_false]
          exact ih lines msgid hno _ _ _ _ _ r
    · simp only [fmf_aux, dif_neg hp]
      by_cases hw : wrapped
      · simp [hw]
      · simp only [hw, if_false]
        exact ih lines msgid hno _ _ _ _ _ r

theorem fmf_aux_error_shape :
    ∀ (fuel : Nat) (lines : List String) (msgid : String) (wrapped : Bool)
      (buffered : List String) (pre : Nat) (reading : Bool) (pos : Nat) (e : PErr),
      fmf_aux lines msgid fuel wrapped buffered pre reading pos = some (.error e) →
      e = .entryNotFound := by
  intro fuel
  induction fuel with
  | zero =>
    intro lines msgid wrapped buffered pre reading pos e h
    simp [fmf_aux] at h
  | succ fuel ih =>
    intro lines msgid wrapped buffered pre reading pos e h
    by_cases hp : pos < lines.length
    · simp only [fmf_aux, dif_pos hp] at h
      rcases hm : entry_field_match (lines.get ⟨pos, hp⟩) with _ | ⟨f, v⟩
      · rw [hm] at h
        exact ih _ _ _ _ _ _ _ _ h
      · rw [hm] at h
        simp only at h
        by_cases hhit : (f == "msgid" && v == msgid) = true
        · rw [if_pos hhit] at h
          simp at h
        · rw [if_neg hhit] at h
          exact ih _ _ _ _ _ _ _ _ h
    · simp only [fmf_aux, dif_neg hp] at h
      by_cases hw : wrapped
      · rw [if_pos hw] at h
        simp at h
        exact h.symm
      · rw [if_neg hw] at h
        exact ih _ _ _ _ _ _ _ _ h

/-- C1: the catalog locator, started from any cursor position, terminates
within fuel `2*length + 2` (it scans the file at most twice); when the target
msgid occurs nowhere in the file it returns `EntryNotFoundError` after the
second end-of-file; and on the catalog `["", "hello", "bye"]` locating
`"bye"` succeeds without wrapping while locating `"hello"` from the end
succeeds with exactly one wraparound. -/
theorem c1_locator_wraparound :
    (∀ (lines : List String) (msgid : String) (pos : Nat),
      pos ≤ lines.length → find_msgid_in_file lines msgid pos ≠ none) ∧
    (∀ (lines : List String) (msgid : String) (pos : Nat),
      pos ≤ lines.length →
      (∀ l ∈ lines, is_msgid_hit l msgid = false) →
      find_msgid_in_file lines msgid pos = some (.error .entryNotFound)) ∧
    (find_msgid_in_file
        ["msgid \"\"", "msgstr \"\"", "", "msgid \"hello\"", "msgstr \"h\"", "",
         "msgid \"bye\"", "msgstr \"b\""] "bye" 0
      = some (.ok (6, [""], false))) ∧
    (find_msgid_in_file
        ["msgid \"\"", "msgstr \"\"", "", "msgid \"hello\"", "msgstr \"h\"", "",
         "msgid \"bye\"", "msgstr \"b\""] "hello" 8
      = some (.ok (3, [""], true))) := by
  have hA : ∀ (lines : List String) (msgid : String) (pos : Nat),
      pos ≤ lines.length → find_msgid_in_file lines msgid pos ≠ none := by
    intro lines msgid pos hpos
    apply fmf_aux_ne_none _ _ _ _ _ _ _ _ hpos
    simp only [Bool.false_eq_true, if_false]
    omega
  refine ⟨hA, ?_, by decide, by decide⟩
  intro lines msgid pos hpos hno
  rcases hres : find_msgid_in_file lines msgid pos with _ | x
  · exact absurd hres (hA lines msgid pos hpos)
  · rcases x with e | r
    · rw [fmf_aux_error_shape _ _ _ _ _ _ _ _ _ hres]
    · exact absurd hres (fmf_aux_no_hit_no_ok _ _ _ hno _ _ _ _ _ _)

/-- Witness for C1: the absent-msgid case at a concrete one-line file. -/
theorem c1_locator_wraparound_witness :
    (0 : Nat) ≤ 1 ∧
    find_msgid_in_file ["# comment"] "zzz" 0 = some (.error .entryNotFound) :=
  ⟨by decide,
   c1_locator_wraparound.2.1 ["# comment"] "zzz" 0 (by decide) (by decide)⟩

/-! ## C2 -- the rewriter: update, verbatim copy, stop-and-rewind -/

theorem wue_aux_spec :
    ∀ (fuel : Nat) (lines row : List String) (cm : List (String × Nat))
      (pos : Nat) (out : List String),
      pos ≤ lines.length →
      lines.length - pos + 1 ≤ fuel →
      ((lines.drop pos).takeWhile line_in_block).all (field_mapped row cm) = true →
      wue_aux lines row (some cm) fuel pos out =
        some (.ok (pos + ((lines.drop pos).takeWhile line_in_block).length,
                   out ++ ((lines.drop pos).takeWhile line_in_block).map (emit_line row cm))) := by
  intro fuel
  induction fuel with
  | zero =>
    intro lines row cm pos out hpos hfuel hmap
    omega
  | succ fuel ih =>
    intro lines row cm pos out hpos hfuel hmap
    by_cases hp : pos < lines.length
    · have hpos' : pos + 1 ≤ lines.length := by omega
      have hfuel' : lines.length - (pos + 1) + 1 ≤ fuel := by omega
      have hdrop : lines.drop pos = lines[pos] :: lines.drop (pos + 1) :=
        List.drop_eq_getElem_cons hp
      have hline : lines.getD pos "" = lines[pos] := by
        simp [List.getD_eq_getElem?_getD, List.getElem?_eq_getElem hp]
      rcases hm : entry_field_match lines[pos] with _ | ⟨f, v⟩
      · by_cases hx : extra_string_match lines[pos]
        · have hblk : line_in_block lines[pos] = true := by
            simp only [line_in_block, hx, Bool.or_true]
          rw [hdrop] at hmap ⊢
          rw [List.takeWhile_cons, if_pos hblk] at hmap ⊢
          simp only [List.all_cons, Bool.and_eq_true] at hmap
          simp only [wue_aux, hline, hm]
          rw [if_pos hx]
          rw [ih lines row cm (pos + 1) (out ++ [lines[pos]]) hpos' hfuel' hmap.2]
          simp only [List.length_cons, List.map_cons, emit_line, hm, List.append_assoc,
            List.singleton_append, Option.some.injEq, Except.ok.injEq, Prod.mk.injEq]
          exact ⟨by omega, trivial⟩
        · have hblk : line_in_block lines[pos] = false := by
            simp only [line_in_block, hm, Option.isSome_none, Bool.false_or]
            exact Bool.not_eq_true _ ▸ hx
          rw [hdrop]
          rw [List.takeWhile_cons, if_neg (by simp [hblk])]
          simp only [wue_aux, hline, hm]
          rw [if_neg (by simp [hx])]
          simp
      · have hblk : line_in_block lines[pos] = true := by
          simp only [line_in_block, hm, Option.isSome_some, Bool.true_or]
        rw [hdrop] at hmap ⊢
        rw [List.takeWhile_cons, if_pos hblk] at hmap ⊢
        simp only [List.all_cons, Bool.and_eq_true] at hmap
        have hfm := hmap.1
        simp only [field_mapped, hm] at hfm
        rcases hi : dict_get cm f with _ | i
        · simp only [hi] at hfm
          exact Bool.noConfusion hfm
        · simp only [hi, decide_eq_true_eq] at hfm
          have hget : row.get? i = some (row.getD i "") := by
            simp [List.get?_eq_getElem?, List.getElem?_eq_getElem hfm,
              List.getD_eq_getElem?_getD]
          simp only [wue_aux, hline, hm, hi, hget]
          rw [ih lines row cm (pos + 1)
              (out ++ [f ++ " \"" ++ row.getD i "" ++ "\""]) hpos' hfuel' hmap.2]
          simp only [List.length_cons, List.map_cons, emit_line, hm, hi, List.append_assoc,
            List.singleton_append, Option.some.injEq, Except.ok.injEq, Prod.mk.injEq]
          exact ⟨by omega, trivial⟩
    · have hdrop : lines.drop pos = [] := List.drop_eq_nil_of_le (by omega)
      have hline : lines.getD pos "" = "" := by
        simp [List.getD_eq_getElem?_getD, List.getElem?_eq_none (by omega : lines.length ≤ pos)]
      rw [hdrop]
      simp only [wue_aux, hline]
      norm_num [entry_field_match, extra_string_match, str_trim]

/-- C2 (counterexample): rewriting an entry whose recognized field `msgfoo`
has no column mapping raises `KeyError` (line 515 of the source) instead of
copying the line through unchanged as the claim states. -/
theorem c2_counterexample_unmapped_field :
    write_updated_entry_to_file ["msgfoo \"x\"", "# next"] ["a"] (some [("msgid", 0)]) 0
      = some (.error .keyError) ∧
    write_updated_entry_to_file ["msgfoo \"x\"", "# next"] ["a"] (some [("msgid", 0)]) 0
      ≠ some (.ok (1, ["msgfoo \"x\""])) :=
  ⟨by decide, by decide⟩

/-- C2 (amended): when every entry-field line of the consumed block is
mapped (with an index inside the row), the rewriter writes
`field "row[column_mapping[field]]"` for each entry-field line, copies bare
continuation-string lines verbatim, and stops with the read cursor rewound
to the first line that is neither — but an entry-field line whose field
lacks a mapping makes the rewrite fail with `KeyError` rather than being
copied through. -/
theorem c2_amended_rewriter :
    (∀ (lines row : List String) (cm : List (String × Nat)) (pos : Nat),
      pos ≤ lines.length →
      ((lines.drop pos).takeWhile line_in_block).all (field_mapped row cm) = true →
      write_updated_entry_to_file lines row (some cm) pos =
        some (.ok (pos + ((lines.drop pos).takeWhile line_in_block).length,
                   ((lines.drop pos).takeWhile line_in_block).map (emit_line row cm)))) ∧
    (write_updated_entry_to_file ["msgfoo \"x\""] ["a"] (some [("msgid", 0)]) 0
      = some (.error .keyError)) := by
  refine ⟨?_, by decide⟩
  intro lines row cm pos hpos hmap
  have h := wue_aux_spec (lines.length + 1) lines row cm pos [] hpos (by omega) hmap
  simpa [write_updated_entry_to_file] using h

/-- Witness for C2 (amended): a concrete entry is rewritten with the mapped
value, the continuation line kept verbatim, and the cursor left at the
blank line. -/
theorem c2_amended_rewriter_witness :
    write_updated_entry_to_file ["msgid \"old\"", "\"c\"", "", "msgid \"z\""]
        ["new"] (some [("msgid", 0)]) 0
      = some (.ok (2, ["msgid \"new\"", "\"c\""])) :=
  (c2_amended_rewriter.1 ["msgid \"old\"", "\"c\"", "", "msgid \"z\""]
      ["new"] [("msgid", 0)] 0 (by decide) (by decide)).trans (by decide)

/-! ## C3 -- the line classifiers versus the regular expressions -/

theorem find_split_some :
    ∀ (q : Nat) (l : List Char) (p : Nat), find_split l q = some p →
      3 ≤ p ∧ p ≤ q ∧ is_ws (l.getD p 'x') = true ∧ l.getD (p + 1) 'x' = '"' := by
  intro q
  induction q with
  | zero => intro l p h; simp [find_split] at h
  | succ q ih =>
    intro l p h
    rw [find_split] at h
    split_ifs at h with hc
    · simp only [Option.some.injEq] at h
      subst h
      simp only [Bool.and_eq_true, decide_eq_true_eq, beq_iff_eq] at hc
      exact ⟨hc.1.1, le_refl _, hc.1.2, hc.2⟩
    · have := ih l p h
      exact ⟨this.1, le_trans this.2.1 (Nat.le_succ q), this.2.2⟩

theorem find_split_isSome_of :
    ∀ (q : Nat) (l : List Char) (p : Nat), 3 ≤ p → p ≤ q →
      is_ws (l.getD p 'x') = true → l.getD (p + 1) 'x' = '"' →
      (find_split l q).isSome = true := by
  intro q
  induction q with
  | zero => intro l p h3 hq _ _; omega
  | succ q ih =>
    intro l p h3 hq hws hquote
    rw [find_split]
    split_ifs with hc
    · rfl
    · rcases Nat.lt_or_ge p (q + 1) with hlt | hge
      · exact ih l p h3 (by omega) hws hquote
      · exfalso
        have hpq : p = q + 1 := by omega
        subst hpq
        apply hc
        simp only [Bool.and_eq_true, decide_eq_true_eq, beq_iff_eq]
        exact ⟨⟨h3, hws⟩, hquote⟩

theorem getD_append_len {α : Type} :
    ∀ (xs : List α) (y : α) (ys : List α) (d : α),
      (xs ++ y :: ys).getD xs.length d = y := by
  intro xs
  induction xs with
  | nil => intro y ys d; rfl
  | cons x xs ih => intro y ys d; simpa using ih y ys d

theorem entry_field_match_iff (s : String) :
    entry_field_match s ≠ none ↔ FieldRegexProp s := by
  constructor
  · intro h
    rw [entry_field_match] at h
    split_ifs at h with h1 h2 h3
    · exact absurd rfl h
    · exact absurd rfl h
    · exact absurd rfl h
    · rcases hsp : find_split s.data (s.data.length - 3) with _ | p
      · rw [hsp] at h
        exact absurd rfl h
      · obtain ⟨h3p, hpq, hws, hquote⟩ := find_split_some _ _ _ hsp
        simp only [not_lt] at h1
        simp only [Bool.not_eq_true', beq_eq_false_iff_ne, ne_eq, Decidable.not_not] at h2
        simp only [Bool.not_eq_true', beq_eq_false_iff_ne, ne_eq, Decidable.not_not] at h3
        have hpq' : p ≤ s.data.length - 3 := hpq
        have hplen : p < s.data.length := by omega
        have hp1len : p + 1 < s.data.length := by omega
        have hp2len : p + 2 ≤ s.data.length - 1 := by omega
        have hgetp : s.data.getD p 'x' = s.data[p] := by
          simp [List.getD_eq_getElem?_getD, List.getElem?_eq_getElem hplen]
        have hgetp1 : s.data.getD (p + 1) 'x' = s.data[p + 1] := by
          simp [List.getD_eq_getElem?_getD, List.getElem?_eq_getElem hp1len]
        refine ⟨(s.data.drop 3).take (p - 3), (s.data.drop (p + 2)).dropLast,
          s.data[p], ?_, ?_⟩
        · have e1 : s.data = ['m', 's', 'g'] ++ s.data.drop 3 := by
            conv_lhs => rw [← List.take_append_drop 3 s.data]
            rw [h2]
          have e2 : s.data.drop 3
              = (s.data.drop 3).take (p - 3) ++ s.data.drop p := by
            have e := List.take_append_drop (p - 3) (s.data.drop 3)
            rw [List.drop_drop] at e
            rw [show 3 + (p - 3) = p from by omega] at e
            exact e.symm
          have e3 : s.data.drop p = s.data[p] :: s.data.drop (p + 1) :=
            List.drop_eq_getElem_cons hplen
          have e4 : s.data.drop (p + 1) = '"' :: s.data.drop (p + 2) := by
            have e := List.drop_eq_getElem_cons hp1len
            rw [hgetp1] at hquote
            rw [hquote] at e
            exact e
          have hne : s.data.drop (p + 2) ≠ [] := by
            apply List.ne_nil_of_length_pos
            rw [List.length_drop]
            omega
          have e5 : s.data.drop (p + 2)
              = (s.data.drop (p + 2)).dropLast ++ ['"'] := by
            have hgl : (s.data.drop (p + 2)).getLast hne = '"' := by
              have hq1 : (s.data.drop (p + 2)).getLast? = s.data.getLast? := by
                rw [List.getLast?_drop]
                rw [if_neg (by omega)]
              have hq2 : s.data.getLastD 'x' = '"' := h3
              rw [List.getLastD_eq_getLast?] at hq2
              have hq3 := List.getLast?_eq_getLast (s.data.drop (p + 2)) hne
              rw [hq1] at hq3
              rw [hq3] at hq2
              simpa using hq2
            conv_lhs => rw [← List.dropLast_append_getLast hne]
            rw [hgl]
          conv_lhs => rw [e1, e2, e3, e4]
          conv_lhs => rw [e5]
          simp
        · rw [← hgetp]
          exact hws
  · rintro ⟨a, b, w, heq, hw⟩
    have hlen : s.data.length = a.length + b.length + 6 := by
      rw [heq]
      simp
      omega
    have htake : s.data.take 3 = ['m', 's', 'g'] := by
      rw [heq]
      rfl
    have hlast : s.data.getLastD 'x' = '"' := by
      rw [heq]
      rw [show 'm' :: 's' :: 'g' :: (a ++ w :: '"' :: (b ++ ['"']))
            = ('m' :: 's' :: 'g' :: (a ++ w :: '"' :: b)) ++ ['"'] from by simp,
        List.getLastD_eq_getLast?, List.getLast?_concat]
      rfl
    have hgp : s.data.getD (3 + a.length) 'x' = w := by
      rw [heq]
      rw [show ('m' :: 's' :: 'g' :: (a ++ w :: '"' :: (b ++ ['"'])))
            = ('m' :: 's' :: 'g' :: a) ++ w :: ('"' :: (b ++ ['"'])) from by simp]
      rw [show 3 + a.length = ('m' :: 's' :: 'g' :: a).length from by
        simp only [List.length_cons]; omega]
      exact getD_append_len _ _ _ _
    have hgp1 : s.data.getD (3 + a.length + 1) 'x' = '"' := by
      rw [heq]
      rw [show ('m' :: 's' :: 'g' :: (a ++ w :: '"' :: (b ++ ['"'])))
            = (('m' :: 's' :: 'g' :: a) ++ [w]) ++ '"' :: (b ++ ['"']) from by simp]
      rw [show 3 + a.length + 1 = (('m' :: 's' :: 'g' :: a) ++ [w]).length from by
        simp only [List.length_append, List.length_cons, List.length_nil]; omega]
      exact getD_append_len _ _ _ _
    have hsome : (find_split s.data (s.data.length - 3)).isSome = true := by
      apply find_split_isSome_of _ _ (3 + a.length) (by omega) (by omega)
      · rw [hgp]; exact hw
      · exact hgp1
    rw [entry_field_match]
    rw [if_neg (by omega)]
    rw [if_neg (by simp [htake])]
    rw [if_neg (by rw [hlast]; simp)]
    rcases hsp : find_split s.data (s.data.length - 3) with _ | p
    · rw [hsp] at hsome
      simp at hsome
    · simp

theorem dropWhile_append_all {p : Char → Bool} :
    ∀ (u l : List Char), (∀ c ∈ u, p c = true) →
      (u ++ l).dropWhile p = l.dropWhile p := by
  intro u
  induction u with
  | nil => intro l _; rfl
  | cons c u ih =>
    intro l hall
    rw [List.cons_append, List.dropWhile_cons, if_pos (hall c (List.mem_cons_self c u))]
    exact ih l (fun c' hc' => hall c' (List.mem_cons_of_mem c hc'))

theorem extra_string_match_iff (s : String) :
    extra_string_match s = true ↔ ExtraRegexProp s := by
  constructor
  · intro h
    rw [extra_string_match] at h
    rcases hm : str_trim s.data with _ | ⟨c, t⟩
    · rw [hm] at h
      simp at h
    · rcases t with _ | ⟨c2, t2⟩
      · rw [hm] at h
        simp at h
      · rw [hm] at h
        simp only [Bool.and_eq_true, beq_iff_eq] at h
        obtain ⟨hc, hlastq⟩ := h
        subst hc
        -- decompose s.data around the trimmed middle
        have e1 : s.data = s.data.takeWhile is_ws ++ s.data.dropWhile is_ws :=
          (List.takeWhile_append_dropWhile is_ws s.data).symm
        have e2 : s.data.dropWhile is_ws
            = str_trim s.data
              ++ ((s.data.dropWhile is_ws).reverse.takeWhile is_ws).reverse := by
          conv_lhs => rw [← List.reverse_reverse (s.data.dropWhile is_ws)]
          conv_lhs =>
            rw [← List.takeWhile_append_dropWhile is_ws
                  (s.data.dropWhile is_ws).reverse]
          rw [List.reverse_append]
          rfl
        have hune : c2 :: t2 ≠ [] := List.cons_ne_nil c2 t2
        have e3 : c2 :: t2 = (c2 :: t2).dropLast ++ [(c2 :: t2).getLast hune] :=
          (List.dropLast_append_getLast hune).symm
        have hgl : (c2 :: t2).getLast hune = '"' := by
          have h1 : ('"' :: c2 :: t2).getLastD 'x' = '"' := hlastq
          rw [List.getLastD_eq_getLast?, List.getLast?_cons_cons] at h1
          rw [List.getLast?_eq_getLast _ hune] at h1
          simpa using h1
        refine ⟨s.data.takeWhile is_ws, (c2 :: t2).dropLast,
          ((s.data.dropWhile is_ws).reverse.takeWhile is_ws).reverse, ?_, ?_, ?_⟩
        · conv_lhs => rw [e1, e2, hm]
          conv_lhs => rw [e3, hgl]
          simp
        · intro x hx
          exact List.mem_takeWhile_imp hx
        · intro x hx
          rw [List.mem_reverse] at hx
          exact List.mem_takeWhile_imp hx
  · rintro ⟨u, b, v, heq, hu, hv⟩
    have hq : is_ws '"' = false := by decide
    have htrim : str_trim s.data = '"' :: (b ++ ['"']) := by
      rw [str_trim, heq]
      rw [dropWhile_append_all u _ hu]
      rw [List.dropWhile_cons, if_neg (by simp [hq])]
      rw [show ('"' :: (b ++ '"' :: v)).reverse
            = v.reverse ++ ('"' :: (b.reverse ++ ['"'])) from by simp]
      rw [dropWhile_append_all v.reverse _ (by intro x hx; rw [List.mem_reverse] at hx; exact hv x hx)]
      rw [List.dropWhile_cons, if_neg (by simp [hq])]
      simp
    obtain ⟨hd, tl, hcons⟩ : ∃ hd tl, b ++ ['"'] = hd :: tl :=
      List.exists_cons_of_ne_nil (by simp)
    rw [extra_string_match, htrim, hcons]
    simp only [Bool.and_eq_true, beq_iff_eq]
    constructor
    · trivial
    · rw [← hcons]
      rw [show ('"' : Char) :: (b ++ ['"']) = ('"' :: b) ++ ['"'] from by simp]
      rw [List.getLastD_eq_getLast?, List.getLast?_concat]
      rfl

theorem spec_field_imp_field (s : String) :
    SpecFieldRegexProp s → FieldRegexProp s := by
  rintro ⟨a, w, b, heq, _, hw0, hw⟩
  refine ⟨a ++ w.dropLast, b, w.getLast hw0, ?_, hw _ (List.getLast_mem hw0)⟩
  rw [heq]
  conv_lhs => rw [← List.dropLast_append_getLast hw0]
  simp

/-- C3 (amended): a line is classified as an entry-field line exactly when
it matches the source pattern `^(msg.*)\s"(.*)"$`, as a continuation-string
line exactly when it matches `^\s*"(.*)"\s*$`, and every line matching the
spec's claimed `^(msg\S*)\s+"(.*)"$` is also an entry-field line (the
inclusion is strict; see the counterexample). -/
theorem c3_amended_line_classifier :
    (∀ s : String, entry_field_match s ≠ none ↔ FieldRegexProp s) ∧
    (∀ s : String, extra_string_match s = true ↔ ExtraRegexProp s) ∧
    (∀ s : String, SpecFieldRegexProp s → FieldRegexProp s) :=
  ⟨entry_field_match_iff, extra_string_match_iff, spec_field_imp_field⟩

/-- Witness for C3 (amended): concrete lines satisfying the two regex
readings, obtained through the classifier equivalences. -/
theorem c3_amended_line_classifier_witness :
    FieldRegexProp "msgid \"hi\"" ∧ ExtraRegexProp "  \"x\" " :=
  ⟨(c3_amended_line_classifier.1 "msgid \"hi\"").mp (by decide),
   (c3_amended_line_classifier.2.1 "  \"x\" ").mp (by decide)⟩

/-- C3 (counterexample): `msg x "v"` is recognized as an entry-field line by
the code's `^(msg.*)\s"(.*)"$` but does not match the spec's claimed
`^(msg\S*)\s+"(.*)"$` (the space after `msg` is not allowed by `\S*` and
`x` is not whitespace). -/
theorem c3_counterexample_field_with_space :
    entry_field_match "msg x \"v\"" ≠ none ∧ ¬ SpecFieldRegexProp "msg x \"v\"" := by
  refine ⟨by decide, ?_⟩
  rintro ⟨a, w, b, heq, ha, hw0, hw⟩
  have hdata : ("msg x \"v\"").data = ['m', 's', 'g', ' ', 'x', ' ', '"', 'v', '"'] := rfl
  rw [hdata] at heq
  simp only [List.cons.injEq, true_and] at heq
  rcases a with _ | ⟨c, a'⟩
  · rcases w with _ | ⟨cw, w'⟩
    · exact hw0 rfl
    · simp only [List.nil_append, List.cons_append, List.cons.injEq] at heq
      obtain ⟨hcw, heq⟩ := heq
      rcases w' with _ | ⟨cw2, w''⟩
      · simp only [List.nil_append, List.cons.injEq] at heq
        exact absurd heq.1.symm (by decide)
      · simp only [List.cons_append, List.cons.injEq] at heq
        obtain ⟨hcw2, -⟩ := heq
        have := hw cw2 (by simp)
        rw [← hcw2] at this
        exact absurd this (by decide)
  · simp only [List.cons_append, List.cons.injEq] at heq
    obtain ⟨hc, -⟩ := heq
    have := ha c (by simp)
    rw [← hc] at this
    exact absurd this (by decide)

/-! ## C10 -- stripped versus raw classification (push versus pull) -/

/-- C10: push's extraction classifies the `strip()`ped line while the pull
locator and rewriter classify the raw line; consequently every entry-field
line indented by whitespace is neither an entry-field line nor a
continuation-string line for pull, while push extracts it as a field — shown
generally and on a concrete catalog that push parses into an entry but in
which the pull locator finds nothing. -/
theorem c10_strip_vs_raw_classification :
    (∀ (s : String) (c : Char) (rest : List Char),
      s.data = c :: rest → is_ws c = true →
      entry_field_match (py_strip s) ≠ none →
      entry_field_match s = none ∧ extra_string_match s = false) ∧
    (process_po_file ["  msgid \"a\"", "  msgstr \"x\""]
      = [[("msgid", "a"), ("msgstr", "x")]]) ∧
    (find_msgid_in_file ["  msgid \"a\"", "  msgstr \"x\""] "a" 0
      = some (.error .entryNotFound)) := by
  refine ⟨?_, by decide, by decide⟩
  intro s c rest hdata hws hmatch
  have hcm : c ≠ 'm' := by
    intro hcm
    rw [hcm] at hws
    exact absurd hws (by decide)
  obtain ⟨a, b, w, heq2, -⟩ := (entry_field_match_iff (py_strip s)).mp hmatch
  have hstr : str_trim s.data = 'm' :: 's' :: 'g' :: (a ++ w :: '"' :: (b ++ ['"'])) := heq2
  constructor
  · rw [entry_field_match]
    split_ifs with h1 h2 h3
    · rfl
    · rfl
    · rfl
    · exfalso
      simp only [Bool.not_eq_true', beq_eq_false_iff_ne, ne_eq, Decidable.not_not] at h2
      rw [hdata] at h2
      rw [show (3 : Nat) = 2 + 1 from rfl, List.take_succ_cons] at h2
      simp only [List.cons.injEq] at h2
      exact hcm h2.1
  · rw [extra_string_match, hstr]
    simp

/-- Witness for C10: a tab-indented `msgid` line is opaque for the raw
classifiers although its stripped form is an entry-field line. -/
theorem c10_strip_vs_raw_classification_witness :
    entry_field_match "\tmsgid \"a\"" = none ∧
    extra_string_match "\tmsgid \"a\"" = false :=
  c10_strip_vs_raw_classification.1 "\tmsgid \"a\"" '\t' ("msgid \"a\"").data
    (by decide) (by decide) (by decide)

/-! ## C7 -- push row bounds and the end-to-end example -/

/-- C7: every successful `build_request_body` uses the range
`row_start = 1 + row_offset`, `row_end = row_start + entry_count - 1 +
(1 if header printed)`; and the 3-entry catalog (header plus two entries)
pushed with `row_offset = 5`, `column_offset = 0` and field-backed columns
`msgid`/`msgstr` yields range `Sheet1!A6:B8` with the header row first and
the two entries' pairs in source order. -/
theorem c7_push_request_ranges :
    (∀ (settings : LocaleSettings) (entries : List POEntry) (row_offset : Int)
        (hdr : Bool) (md : List (String × String)) (range : String)
        (body : List (List String)),
      build_request_body settings entries row_offset hdr md = .ok (range, body) →
      range = generate_range_name settings.sheet (1 + row_offset)
        (1 + row_offset + entries.length - 1 + (if hdr then 1 else 0))
        (get_column_string (1 + settings.column_offset).toNat)
        (get_column_string
          (1 + settings.column_offset + settings.columns.length - 1).toNat)) ∧
    (process_po_file
        ["msgid \"\"", "msgstr \"\"", "", "msgid \"id1\"", "msgstr \"str1\"", "",
         "msgid \"id2\"", "msgstr \"str2\""]
      = [[("msgid", "id1"), ("msgstr", "str1")], [("msgid", "id2"), ("msgstr", "str2")]]) ∧
    (build_request_body
        ⟨"Sheet1", 0, 0,
          [⟨"MSGID", some ["msgid"], none⟩, ⟨"MSGSTR", some ["msgstr"], none⟩]⟩
        (process_po_file
          ["msgid \"\"", "msgstr \"\"", "", "msgid \"id1\"", "msgstr \"str1\"", "",
           "msgid \"id2\"", "msgstr \"str2\""])
        5 true []
      = .ok ("Sheet1!A6:B8",
             [["MSGID", "MSGSTR"], ["id1", "str1"], ["id2", "str2"]])) := by
  refine ⟨?_, by decide, by decide⟩
  intro settings entries row_offset hdr md range body h
  simp only [build_request_body] at h
  rcases hr : build_request_rows settings.columns md entries with e | rows
  · simp only [hr] at h
    exact absurd h (by simp)
  · simp only [hr, Except.ok.injEq, Prod.mk.injEq] at h
    exact h.1.symm

/-- Witness for C7: the row-bound formula instantiated at the concrete
3-entry push. -/
theorem c7_push_request_ranges_witness :
    "Sheet1!A6:B8" = generate_range_name "Sheet1" (1 + 5)
      (1 + 5 + ([[("msgid", "id1"), ("msgstr", "str1")],
                 [("msgid", "id2"), ("msgstr", "str2")]] : List POEntry).length - 1
        + (if true then 1 else 0))
      (get_column_string (1 + (0 : Int)).toNat)
      (get_column_string (1 + (0 : Int) + 2 - 1).toNat) :=
  c7_push_request_ranges.1
    ⟨"Sheet1", 0, 0,
      [⟨"MSGID", some ["msgid"], none⟩, ⟨"MSGSTR", some ["msgstr"], none⟩]⟩
    [[("msgid", "id1"), ("msgstr", "str1")], [("msgid", "id2"), ("msgstr", "str2")]]
    5 true [] "Sheet1!A6:B8" [["MSGID", "MSGSTR"], ["id1", "str1"], ["id2", "str2"]]
    (by decide)

/-! ## C8 -- column mapping fails fast on a missing file-name column -/

theorem dict_get_set_same {α : Type} :
    ∀ (d : List (String × α)) (k : String) (v : α),
      dict_get (dict_set d k v) k = some v := by
  intro d
  induction d with
  | nil => intro k v; simp [dict_set, dict_get, List.find?]
  | cons p rest ih =>
    intro k v
    rw [dict_set]
    split_ifs with h
    · simp [dict_get, List.find?]
    · rw [dict_get, List.find?]
      simp only [h]
      exact ih k v

theorem dict_get_set_ne {α : Type} :
    ∀ (d : List (String × α)) (k k' : String) (v : α), k' ≠ k →
      dict_get (dict_set d k v) k' = dict_get d k' := by
  intro d
  induction d with
  | nil =>
    intro k k' v hne
    simp only [dict_set, dict_get, List.find?]
    have : (k == k') = false := by
      simp [beq_eq_false_iff_ne]
      exact fun h => hne h.symm
    simp [this]
  | cons p rest ih =>
    intro k k' v hne
    rw [dict_set]
    split_ifs with h
    · have hpk : p.1 = k := by simpa using h
      rw [dict_get, dict_get, List.find?, List.find?]
      have h1 : (k == k') = false := by
        simp only [beq_eq_false_iff_ne, ne_eq]
        exact fun hh => hne hh.symm
      have h2 : (p.1 == k') = false := by
        rw [hpk]
        exact h1
      simp only [h1, h2]
    · rw [dict_get, dict_get, List.find?, List.find?]
      rcases hpk : (p.1 == k') with _ | _
      · simpa [dict_get] using ih k k' v hne
      · simp

theorem dict_get_foldl_set_ne {k : String} :
    ∀ (fl : List String) (ret : List (String × Nat)) (i : Nat), k ∉ fl →
      dict_get (fl.foldl (fun d f => dict_set d f i) ret) k = dict_get ret k := by
  intro fl
  induction fl with
  | nil => intro ret i _; rfl
  | cons f fl ih =>
    intro ret i hnot
    rw [List.foldl_cons]
    rw [ih _ i (fun h => hnot (List.mem_cons_of_mem f h))]
    exact dict_get_set_ne ret f k i (fun h => hnot (h ▸ List.mem_cons_self f fl))

theorem fn_key_ok_mono :
    ∀ (pre cs : List Column) (ret : List (String × Nat)),
      fn_key_ok pre ret → fn_key_ok (pre ++ cs) ret := by
  rintro pre cs ret ⟨i, c, s, h1, h2, h3, h4⟩
  have hi : i < pre.length := by
    by_contra hge
    rw [List.getElem?_eq_none (by omega)] at h2
    exact Option.noConfusion h2
  exact ⟨i, c, s, h1, by rw [List.getElem?_append, if_pos hi]; exact h2, h3, h4⟩

theorem gcm_aux_found :
    ∀ (cs : List Column) (i : Nat) (ret : List (String × Nat)) (found : Bool),
      (∀ c ∈ cs, c.fields = none ∨ c.static = none) →
      ((gcm_aux cs i ret found).2 = true ↔
        found = true ∨ ∃ c ∈ cs, ∃ s, c.static = some s ∧
          contains_substr s "\x7bfile_name\x7d" = true) := by
  intro cs
  induction cs with
  | nil =>
    intro i ret found _
    simp [gcm_aux]
  | cons c cs ih =>
    intro i ret found hwf
    have hwf' : ∀ c' ∈ cs, c'.fields = none ∨ c'.static = none :=
      fun c' hc' => hwf c' (List.mem_cons_of_mem c hc')
    rcases hf : c.fields with _ | fl
    · rcases hs : c.static with _ | s
      · simp only [gcm_aux, hf, hs]
        rw [ih (i + 1) ret found hwf']
        constructor
        · rintro (h | ⟨c', hc', hrest⟩)
          · exact Or.inl h
          · exact Or.inr ⟨c', List.mem_cons_of_mem c hc', hrest⟩
        · rintro (h | ⟨c', hc', s', hs', hcon⟩)
          · exact Or.inl h
          · rcases List.mem_cons.mp hc' with rfl | hc''
            · rw [hs] at hs'
              exact Option.noConfusion hs'
            · exact Or.inr ⟨c', hc'', s', hs', hcon⟩
      · simp only [gcm_aux, hf, hs]
        split_ifs with hcon
        · rw [ih (i + 1) _ true hwf']
          constructor
          · intro _
            exact Or.inr ⟨c, List.mem_cons_self c cs, s, hs, hcon⟩
          · intro _
            exact Or.inl rfl
        · rw [ih (i + 1) ret found hwf']
          constructor
          · rintro (h | ⟨c', hc', hrest⟩)
            · exact Or.inl h
            · exact Or.inr ⟨c', List.mem_cons_of_mem c hc', hrest⟩
          · rintro (h | ⟨c', hc', s', hs', hcon'⟩)
            · exact Or.inl h
            · rcases List.mem_cons.mp hc' with rfl | hc''
              · rw [hs] at hs'
                obtain rfl : s = s' := Option.some.inj hs'
                exact absurd hcon' (by simp [hcon])
              · exact Or.inr ⟨c', hc'', s', hs', hcon'⟩
    · have hs : c.static = none := by
        rcases hwf c (List.mem_cons_self c cs) with h | h
        · rw [hf] at h
          exact Option.noConfusion h
        · exact h
      simp only [gcm_aux, hf]
      rw [ih (i + 1) _ found hwf']
      constructor
      · rintro (h | ⟨c', hc', hrest⟩)
        · exact Or.inl h
        · exact Or.inr ⟨c', List.mem_cons_of_mem c hc', hrest⟩
      · rintro (h | ⟨c', hc', s', hs', hcon⟩)
        · exact Or.inl h
        · rcases List.mem_cons.mp hc' with rfl | hc''
          · rw [hs] at hs'
            exact Option.noConfusion hs'
          · exact Or.inr ⟨c', hc'', s', hs', hcon⟩

theorem gcm_aux_fn :
    ∀ (cs pre : List Column) (ret : List (String × Nat)) (found : Bool),
      (∀ c ∈ cs, ∀ fl, c.fields = some fl → "_file_name" ∉ fl) →
      (found = true → fn_key_ok pre ret) →
      (gcm_aux cs pre.length ret found).2 = true →
      fn_key_ok (pre ++ cs) (gcm_aux cs pre.length ret found).1 := by
  intro cs
  induction cs with
  | nil =>
    intro pre ret found _ hinv hfound
    rw [List.append_nil]
    exact hinv hfound
  | cons c cs ih =>
    intro pre ret found hfl hinv hfound
    have hfl' : ∀ c' ∈ cs, ∀ fl, c'.fields = some fl → "_file_name" ∉ fl :=
      fun c' hc' => hfl c' (List.mem_cons_of_mem c hc')
    have hsplit : pre ++ c :: cs = (pre ++ [c]) ++ cs := by simp
    have hlen : (pre ++ [c]).length = pre.length + 1 := by simp
    rcases hf : c.fields with _ | fl
    · rcases hs : c.static with _ | s
      · simp only [gcm_aux, hf, hs] at hfound ⊢
        rw [hsplit, ← hlen]
        rw [← hlen] at hfound
        refine ih (pre ++ [c]) ret found hfl' ?_ hfound
        intro h
        exact fn_key_ok_mono pre [c] ret (hinv h)
      · simp only [gcm_aux, hf, hs] at hfound ⊢
        by_cases hcon : contains_substr s "\x7bfile_name\x7d" = true
        · rw [if_pos hcon] at hfound ⊢
          rw [hsplit, ← hlen]
          rw [← hlen] at hfound
          refine ih (pre ++ [c]) _ true hfl' ?_ hfound
          intro _
          refine ⟨pre.length, c, s, dict_get_set_same ret _ _, ?_, hs, hcon⟩
          rw [List.getElem?_append, if_neg (by omega)]
          simp
        · rw [if_neg hcon] at hfound ⊢
          rw [hsplit, ← hlen]
          rw [← hlen] at hfound
          refine ih (pre ++ [c]) ret found hfl' ?_ hfound
          intro h
          exact fn_key_ok_mono pre [c] ret (hinv h)
    · simp only [gcm_aux, hf] at hfound ⊢
      rw [hsplit, ← hlen]
      rw [← hlen] at hfound
      refine ih (pre ++ [c]) _ found hfl' ?_ hfound
      intro h
      have hnot : "_file_name" ∉ fl := hfl c (List.mem_cons_self c cs) fl hf
      obtain ⟨i, c', s, h1, h2, h3, h4⟩ := hinv h
      refine fn_key_ok_mono pre [c] _ ⟨i, c', s, ?_, h2, h3, h4⟩
      rw [dict_get_foldl_set_ne fl ret pre.length hnot]
      exact h1

/-- C8: for well-formed descriptors (each column field-backed or static,
per the spec's data model) the column mapping fails exactly when no static
template contains the `\x7bfile_name\x7d` placeholder; on success the reserved
`_file_name` key points at such a column; and a mapping failure makes
`pull_by_locale` return the configuration error with the file system
untouched, for every sheet service — the check happens before any
spreadsheet I/O. -/
theorem c8_column_mapping_fail_fast :
    (∀ columns : List Column,
      (∀ c ∈ columns, c.fields = none ∨ c.static = none) →
      ((get_column_mapping columns).isOk = false ↔
        ∀ c ∈ columns, ∀ s, c.static = some s →
          contains_substr s "\x7bfile_name\x7d" = false)) ∧
    (∀ columns : List Column,
      (∀ c ∈ columns, ∀ fl, c.fields = some fl → "_file_name" ∉ fl) →
      ∀ m, get_column_mapping columns = .ok m → fn_key_ok columns m) ∧
    (∀ (chunk_size : Nat) (settings : LocaleSettings)
        (pathMap : List (String × String))
        (sheetData : String → Option (List (List String)))
        (fs : FileSys) (fuel : Nat),
      (get_column_mapping settings.columns).isOk = false →
      pull_by_locale chunk_size settings pathMap sheetData fs fuel
        = (.error .configError, fs)) := by
  refine ⟨?_, ?_, ?_⟩
  · intro columns hwf
    have hfound := gcm_aux_found columns 0 [] false hwf
    constructor
    · intro hko c hc s hs
      by_contra hcon
      rw [Bool.not_eq_false] at hcon
      have h2 : (gcm_aux columns 0 [] false).2 = true :=
        hfound.mpr (Or.inr ⟨c, hc, s, hs, hcon⟩)
      simp only [get_column_mapping] at hko
      rw [if_pos h2] at hko
      simp [Except.isOk, Except.toBool] at hko
    · intro hall
      simp only [get_column_mapping]
      split_ifs with h2
      · exfalso
        rcases hfound.mp h2 with h | ⟨c, hc, s, hs, hcon⟩
        · exact Bool.noConfusion h
        · rw [hall c hc s hs] at hcon
          exact Bool.noConfusion hcon
      · rfl
  · intro columns hwf2 m hm
    simp only [get_column_mapping] at hm
    split_ifs at hm with h2
    · simp only [Except.ok.injEq] at hm
      subst hm
      have := gcm_aux_fn columns [] [] false hwf2 (fun h => absurd h (by simp)) h2
      simpa using this
  · intro chunk_size settings pathMap sheetData fs fuel hko
    have hge : get_column_mapping settings.columns = .error .configError := by
      simp only [get_column_mapping] at hko ⊢
      split_ifs at hko ⊢ with h2
      · simp [Except.isOk, Except.toBool] at hko
      · rfl
    simp only [pull_by_locale, hge]

/-- Witness for C8: the reserved key of a concrete two-column configuration
points at the file-name column. -/
theorem c8_column_mapping_fail_fast_witness :
    fn_key_ok
      [⟨"F", none, some "\x7bfile_name\x7d"⟩, ⟨"ID", some ["msgid"], none⟩]
      [("_file_name", 0), ("msgid", 1)] :=
  c8_column_mapping_fail_fast.2.1
    [⟨"F", none, some "\x7bfile_name\x7d"⟩, ⟨"ID", some ["msgid"], none⟩]
    (by decide) [("_file_name", 0), ("msgid", 1)] (by decide)

/-! ## C9 -- locale derivation and run abort -/

theorem dropWhile_eq_drop_len_takeWhile {p : Char → Bool} :
    ∀ l : List Char, l.dropWhile p = l.drop (l.takeWhile p).length := by
  intro l
  induction l with
  | nil => rfl
  | cons c t ih =>
    rw [List.dropWhile_cons, List.takeWhile_cons]
    by_cases hc : p c = true
    · rw [if_pos hc, if_pos hc]
      simpa using ih
    · rw [if_neg hc, if_neg hc]
      rfl

theorem takeWhile_all_cons_append {p : Char → Bool} :
    ∀ (u : List Char) (y : Char) (t : List Char),
      (∀ c ∈ u, p c = true) → p y = false →
      ((u ++ y :: t).takeWhile p) = u := by
  intro u
  induction u with
  | nil =>
    intro y t _ hy
    rw [List.nil_append, List.takeWhile_cons, if_neg (by simp [hy])]
  | cons c u ih =>
    intro y t hall hy
    rw [List.cons_append, List.takeWhile_cons,
      if_pos (hall c (List.mem_cons_self c u))]
    rw [ih y t (fun c' hc' => hall c' (List.mem_cons_of_mem c hc')) hy]

theorem lc_match_at_isSome_iff :
    ∀ l : List Char, (lc_match_at l).isSome = true ↔
      ∃ (X post : List Char),
        l = '/' :: (X ++ ("/LC_MESSAGES".data ++ post)) ∧
        X ≠ [] ∧ ∀ c ∈ X, locale_char c = true := by
  intro l
  constructor
  · intro h
    rcases l with _ | ⟨c, rest⟩
    · simp [lc_match_at] at h
    · rw [lc_match_at] at h
      split_ifs at h with hc hrun hpre
      · simp at h
      · refine ⟨rest.takeWhile locale_char, ?_, ?_, ?_, ?_⟩
        · exact (rest.drop (rest.takeWhile locale_char).length).drop
            ("/LC_MESSAGES".data).length
        · rw [List.isPrefixOf_iff_prefix] at hpre
          obtain ⟨post, hpost⟩ := hpre
          subst hc
          congr 1
          conv_lhs => rw [← List.takeWhile_append_dropWhile locale_char rest]
          rw [dropWhile_eq_drop_len_takeWhile rest]
          congr 1
          rw [← hpost]
          rw [List.drop_left]
        · intro hX
          rw [← List.isEmpty_iff] at hX
          exact absurd hX (by simpa using hrun)
        · intro c' hc'
          exact List.mem_takeWhile_imp hc'
      · simp at h
      · simp at h
  · rintro ⟨X, post, heq, hX, hall⟩
    have hslash : locale_char '/' = false := by decide
    have hlc : ("/LC_MESSAGES".data) = '/' :: ("LC_MESSAGES".data) := rfl
    have hrest : X ++ ("/LC_MESSAGES".data ++ post)
        = X ++ '/' :: ("LC_MESSAGES".data ++ post) := by
      rw [hlc]
      simp
    have htw : ((X ++ ("/LC_MESSAGES".data ++ post)).takeWhile locale_char) = X := by
      rw [hrest]
      exact takeWhile_all_cons_append X '/' _ hall hslash
    subst heq
    rw [lc_match_at]
    rw [if_pos rfl]
    rw [htw]
    rw [if_neg (by simpa [List.isEmpty_iff] using hX)]
    rw [List.drop_left]
    rw [if_pos ?hp]
    · rfl
    · rw [List.isPrefixOf_iff_prefix]
      exact ⟨post, rfl⟩

theorem lc_search_isSome_iff :
    ∀ l : List Char, (lc_search l).isSome = true ↔
      ∃ (pre suf : List Char), l = pre ++ suf ∧ (lc_match_at suf).isSome = true := by
  intro l
  induction l with
  | nil =>
    constructor
    · intro h
      simp [lc_search, lc_match_at] at h
    · rintro ⟨pre, suf, heq, hm⟩
      obtain ⟨rfl, rfl⟩ : pre = [] ∧ suf = [] := List.append_eq_nil.mp heq.symm
      simp [lc_match_at] at hm
  | cons c t ih =>
    constructor
    · intro h
      rcases hm : lc_match_at (c :: t) with _ | x
      · simp only [lc_search, hm] at h
        obtain ⟨pre, suf, heq, hsuf⟩ := ih.mp h
        exact ⟨c :: pre, suf, by rw [List.cons_append, heq], hsuf⟩
      · exact ⟨[], c :: t, rfl, by rw [hm]; rfl⟩
    · rintro ⟨pre, suf, heq, hm⟩
      rcases pre with _ | ⟨p0, pre'⟩
      · rw [List.nil_append] at heq
        subst heq
        rcases hmm : lc_match_at (c :: t) with _ | x
        · rw [hmm] at hm
          exact absurd hm (by simp)
        · simp [lc_search, hmm]
      · rw [List.cons_append] at heq
        obtain ⟨rfl, ht⟩ : c = p0 ∧ t = pre' ++ suf := by
          simpa using heq
        rcases hmm : lc_match_at (c :: t) with _ | x
        · simp only [lc_search, hmm]
          exact ih.mpr ⟨pre', suf, ht, hm⟩
        · simp [lc_search, hmm]

/-- C9 (counterexample): in `/app/pt_BR/LC_MESSAGES/app.po` the path segment
immediately preceding `LC_MESSAGES` is `pt_BR`, yet `get_locale_by_path`
raises the fatal locale error because `_` is outside `[a-zA-Z-]` — the claim
that the locale is that segment "whatever characters it contains" is false. -/
theorem c9_counterexample_locale_charset :
    segment_before_lc (split_slash ("/app/pt_BR/LC_MESSAGES/app.po").data)
      = some ("pt_BR").data ∧
    get_locale_by_path "/app/pt_BR/LC_MESSAGES/app.po" = .error .localeError :=
  ⟨by decide, by decide⟩

/-! ## C5 -- fatal pull errors abort before promotion -/

theorem nta_refl (fs : FileSys) : nta fs fs :=
  fun _ _ => rfl

theorem nta_trans {fs1 fs2 fs3 : FileSys} (h1 : nta fs1 fs2) (h2 : nta fs2 fs3) :
    nta fs1 fs3 :=
  fun n hn => (h2 n hn).trans (h1 n hn)

theorem tmp_name_append (s : String) : tmp_name (s ++ ".tmp") = true := by
  rw [tmp_name, String.data_append]
  rw [List.isSuffixOf_iff_suffix]
  exact List.suffix_append s.data _

theorem nta_set_tmp {fs : FileSys} {k : String} {v : List String}
    (hk : tmp_name k = true) : nta fs (dict_set fs k v) := by
  intro n hn
  refine dict_get_set_ne fs k n v ?_
  intro hnk
  rw [hnk, hk] at hn
  exact Bool.noConfusion hn

theorem open_handle_pair_nta (fs : FileSys) (target : String) :
    nta fs (match open_handle_pair fs target with
            | .error (_, fs') => fs'
            | .ok (fs', _) => fs') := by
  rcases hg : dict_get fs target with _ | content
  · simp only [open_handle_pair, hg]
    exact nta_refl fs
  · rcases hf : find_msgid_run content "" 0 with e | pb
    · simp only [open_handle_pair, hg, hf]
      exact nta_set_tmp (tmp_name_append target)
    · rcases pb with ⟨pre, buffered⟩
      rcases hw : write_updated_run content [] none pre with e | pw
      · simp only [open_handle_pair, hg, hf, hw]
        exact nta_set_tmp (tmp_name_append target)
      · simp only [open_handle_pair, hg, hf, hw]
        exact nta_set_tmp (tmp_name_append target)

theorem process_rows_nta (pathMap : List (String × String))
    (cm : List (String × Nat)) (template : String) (fnc mc : Nat) :
    ∀ (data : List (List String)) (fs : FileSys) (hm : List (String × Handles)),
      nta fs (result_fs (process_rows pathMap cm template fnc mc data fs hm)) := by
  intro data
  induction data with
  | nil =>
    intro fs hm
    simp only [process_rows, result_fs]
    exact nta_refl fs
  | cons row rest ih =>
    intro fs hm
    by_cases hany : row.any (fun c => !(c == "")) = true
    · rcases h1 : row.get? fnc with _ | cell
      · simp only [process_rows, if_pos hany, h1, result_fs]
        exact nta_refl fs
      · rcases h2 : extract_string_assigns template cell with _ | assigns
        · simp only [process_rows, if_pos hany, h1, h2, result_fs]
          exact nta_refl fs
        · rcases h3 : dict_get assigns "file_name" with _ | base
          · simp only [process_rows, if_pos hany, h1, h2, h3, result_fs]
            exact nta_refl fs
          · rcases h4 : dict_get pathMap base with _ | target
            · simp only [process_rows, if_pos hany, h1, h2, h3, h4, result_fs]
              exact nta_refl fs
            · rcases hhm : dict_get hm base with _ | hnd
              · -- open a fresh handle pair
                have hopen := open_handle_pair_nta fs target
                rcases hop : open_handle_pair fs target with ⟨e, fs'⟩ | ⟨fs', hnd⟩
                · simp only [hop] at hopen
                  simp only [process_rows, if_pos hany, h1, h2, h3, h4, hhm, hop,
                    result_fs]
                  exact hopen
                · simp only [hop] at hopen
                  rcases h5 : row.get? mc with _ | tmsgid
                  · simp only [process_rows, if_pos hany, h1, h2, h3, h4, hhm, hop,
                      h5, result_fs]
                    exact hopen
                  · rcases h6 : find_msgid_run hnd.readLines tmsgid hnd.readPos
                        with e | ⟨pre, buffered⟩
                    · simp only [process_rows, if_pos hany, h1, h2, h3, h4, hhm, hop,
                        h5, h6, result_fs]
                      exact hopen
                    · rcases h7 : write_updated_run hnd.readLines row (some cm) pre
                          with e | ⟨pos', written⟩
                      · simp only [process_rows, if_pos hany, h1, h2, h3, h4, hhm,
                          hop, h5, h6, h7, result_fs]
                        exact hopen
                      · simp only [process_rows, if_pos hany, h1, h2, h3, h4, hhm,
                          hop, h5, h6, h7]
                        exact nta_trans hopen (ih fs' _)
              · rcases h5 : row.get? mc with _ | tmsgid
                · simp only [process_rows, if_pos hany, h1, h2, h3, h4, hhm, h5,
                    result_fs]
                  exact nta_refl fs
                · rcases h6 : find_msgid_run hnd.readLines tmsgid hnd.readPos
                      with e | ⟨pre, buffered⟩
                  · simp only [process_rows, if_pos hany, h1, h2, h3, h4, hhm, h5,
                      h6, result_fs]
                    exact nta_refl fs
                  · rcases h7 : write_updated_run hnd.readLines row (some cm) pre
                        with e | ⟨pos', written⟩
                    · simp only [process_rows, if_pos hany, h1, h2, h3, h4, hhm, h5,
                        h6, h7, result_fs]
                      exact nta_refl fs
                    · simp only [process_rows, if_pos hany, h1, h2, h3, h4, hhm, h5,
                        h6, h7]
                      exact ih fs _
    · simp only [process_rows, if_neg hany]
      exact ih fs hm

theorem process_chunk_nta (pathMap : List (String × String))
    (cm : List (String × Nat)) (template : String)
    (data : List (List String)) (fs : FileSys) (hm : List (String × Handles)) :
    nta fs (result_fs (process_chunk pathMap cm template data fs hm)) := by
  rcases h1 : dict_get cm "_file_name" with _ | fnc
  · simp only [process_chunk, h1, result_fs]
    exact nta_refl fs
  · rcases h2 : dict_get cm "msgid" with _ | mc
    · simp only [process_chunk, h1, h2, result_fs]
      exact nta_refl fs
    · simp only [process_chunk, h1, h2]
      exact process_rows_nta pathMap cm template fnc mc data fs hm

theorem pull_loop_nta (pathMap : List (String × String))
    (cm : List (String × Nat)) (template : String) (sheet : String)
    (chunk_size : Nat) (column_start column_end : String)
    (sheetData : String → Option (List (List String))) :
    ∀ (fuel : Nat) (row_start : Int) (fs : FileSys) (hm : List (String × Handles)),
      nta fs (pull_loop pathMap cm template sheet chunk_size column_start
        column_end sheetData fuel row_start fs hm).2.1 := by
  intro fuel
  induction fuel with
  | zero =>
    intro row_start fs hm
    simp only [pull_loop]
    exact nta_refl fs
  | succ fuel ih =>
    intro row_start fs hm
    simp only [pull_loop]
    split_ifs with hlen
    · exact nta_refl fs
    · have hchunk := process_chunk_nta pathMap cm template
        ((sheetData (generate_range_name sheet row_start
          (row_start + (chunk_size : Int) - 1) column_start column_end)).getD [])
        fs hm
      rcases hpc : process_chunk pathMap cm template
          ((sheetData (generate_range_name sheet row_start
            (row_start + (chunk_size : Int) - 1) column_start column_end)).getD [])
          fs hm with ⟨e, fs'⟩ | ⟨fs', hm'⟩
      · simp only [hpc, result_fs] at hchunk
        simp only [hpc]
        exact hchunk
      · simp only [hpc, result_fs] at hchunk
        simp only [hpc]
        exact nta_trans hchunk (ih _ fs' hm')

theorem promote_all_error_shape (pathMap : List (String × String)) :
    ∀ (hm : List (String × Handles)) (fs : FileSys) (e : PErr) (fs' : FileSys),
      promote_all pathMap hm fs = .error (e, fs') →
      e = .keyError ∨ e = .ioError := by
  intro hm
  induction hm with
  | nil =>
    intro fs e fs' h
    simp only [promote_all] at h
    exact Except.noConfusion h
  | cons nh rest ih =>
    intro fs e fs' h
    rcases nh with ⟨name, hnd⟩
    rcases h1 : dict_get pathMap name with _ | full
    · simp only [promote_all, h1] at h
      simp only [Except.error.injEq, Prod.mk.injEq] at h
      exact Or.inl h.1.symm
    · rcases h2 : dict_get
          (dict_remove (dict_set fs (full ++ ".tmp") hnd.writeBuf) (full ++ ".old"))
          full with _ | orig
      · simp only [promote_all, h1, h2] at h
        simp only [Except.error.injEq, Prod.mk.injEq] at h
        exact Or.inr h.1.symm
      · rcases h3 : dict_get
            (dict_set
              (dict_remove
                (dict_remove (dict_set fs (full ++ ".tmp") hnd.writeBuf)
                  (full ++ ".old")) full)
              (full ++ ".old") orig)
            (full ++ ".tmp") with _ | tmpc
        · simp only [promote_all, h1, h2, h3] at h
          simp only [Except.error.injEq, Prod.mk.injEq] at h
          exact Or.inr h.1.symm
        · simp only [promote_all, h1, h2, h3] at h
          exact ih _ e fs' h

theorem lc_match_at_eq_some_iff :
    ∀ (l : List Char) (X : String),
      lc_match_at l = some X ↔
        ∃ post : List Char,
          l = '/' :: (X.data ++ ("/LC_MESSAGES".data ++ post)) ∧
          X.data ≠ [] ∧ ∀ c ∈ X.data, locale_char c = true := by
  intro l X
  constructor
  · intro h
    rcases l with _ | ⟨c, rest⟩
    · simp [lc_match_at] at h
    · rw [lc_match_at] at h
      split_ifs at h with hc hrun hpre
      have hX : X.data = rest.takeWhile locale_char := by
        rw [← Option.some.inj h]
      refine ⟨(rest.drop (rest.takeWhile locale_char).length).drop
          ("/LC_MESSAGES".data).length, ?_, ?_, ?_⟩
      · rw [List.isPrefixOf_iff_prefix] at hpre
        obtain ⟨post, hpost⟩ := hpre
        subst hc
        rw [hX]
        congr 1
        conv_lhs => rw [← List.takeWhile_append_dropWhile locale_char rest]
        rw [dropWhile_eq_drop_len_takeWhile rest]
        congr 1
        rw [← hpost, List.drop_left]
      · rw [hX]
        intro hnil
        rw [← List.isEmpty_iff] at hnil
        exact absurd hnil (by simpa using hrun)
      · rw [hX]
        intro c' hc'
        exact List.mem_takeWhile_imp hc'
  · rintro ⟨post, heq, hX, hall⟩
    obtain ⟨Xd⟩ := X
    have hslash : locale_char '/' = false := by decide
    have hlc : ("/LC_MESSAGES".data) = '/' :: ("LC_MESSAGES".data) := rfl
    have hrest : Xd ++ ("/LC_MESSAGES".data ++ post)
        = Xd ++ '/' :: ("LC_MESSAGES".data ++ post) := by
      rw [hlc]
      simp
    have htw : ((Xd ++ ("/LC_MESSAGES".data ++ post)).takeWhile locale_char)
        = Xd := by
      rw [hrest]
      exact takeWhile_all_cons_append Xd '/' _ hall hslash
    have hp : ("/LC_MESSAGES".data).isPrefixOf ("/LC_MESSAGES".data ++ post)
        = true := by
      rw [List.isPrefixOf_iff_prefix]
      exact ⟨post, rfl⟩
    subst heq
    rw [lc_match_at]
    rw [if_pos rfl]
    dsimp only
    rw [htw]
    rw [if_neg (by simpa [List.isEmpty_iff] using hX)]
    rw [List.drop_left]
    rw [if_pos hp]

theorem lc_search_value :
    ∀ (l : List Char) (X : String),
      lc_search l = some X ↔
        ∃ (pre post : List Char),
          l = pre ++ '/' :: (X.data ++ ("/LC_MESSAGES".data ++ post)) ∧
          X.data ≠ [] ∧ (∀ c ∈ X.data, locale_char c = true) ∧
          ∀ (pre' suf' : List Char), l = pre' ++ suf' →
            pre'.length < pre.length → lc_match_at suf' = none := by
  intro l
  induction l with
  | nil =>
    intro X
    constructor
    · intro h
      simp [lc_search] at h
    · rintro ⟨pre, post, heq, -, -, -⟩
      exact absurd heq.symm (by simp)
  | cons c t ih =>
    intro X
    constructor
    · intro h
      rcases hm : lc_match_at (c :: t) with _ | x
      · simp only [lc_search, hm] at h
        obtain ⟨pre, post, heq, hX, hall, hleft⟩ := (ih X).mp h
        refine ⟨c :: pre, post, by rw [List.cons_append, heq], hX, hall, ?_⟩
        intro pre' suf' heq' hlen
        rcases pre' with _ | ⟨c', pre''⟩
        · rw [List.nil_append] at heq'
          rw [← heq']
          exact hm
        · rw [List.cons_append] at heq'
          obtain ⟨rfl, ht⟩ : c = c' ∧ t = pre'' ++ suf' := by
            simpa using heq'
          refine hleft pre'' suf' ht ?_
          simp only [List.length_cons] at hlen
          omega
      · simp only [lc_search, hm] at h
        have hx : x = X := Option.some.inj h
        obtain ⟨post, heq, hX, hall⟩ :=
          (lc_match_at_eq_some_iff (c :: t) X).mp (hx ▸ hm)
        refine ⟨[], post, by rw [List.nil_append]; exact heq, hX, hall, ?_⟩
        intro pre' suf' _ hlen
        simp at hlen
    · rintro ⟨pre, post, heq, hX, hall, hleft⟩
      rcases pre with _ | ⟨c', pre₂⟩
      · rw [List.nil_append] at heq
        have hm : lc_match_at (c :: t) = some X :=
          (lc_match_at_eq_some_iff (c :: t) X).mpr ⟨post, heq, hX, hall⟩
        simp [lc_search, hm]
      · rw [List.cons_append] at heq
        obtain ⟨rfl, ht⟩ : c = c' ∧
            t = pre₂ ++ '/' :: (X.data ++ ("/LC_MESSAGES".data ++ post)) := by
          simpa using heq
        have hm : lc_match_at (c :: t) = none := by
          refine hleft [] (c :: t) rfl ?_
          simp
        have hrec : lc_search t = some X := by
          refine (ih X).mpr ⟨pre₂, post, ht, hX, hall, ?_⟩
          intro pre' suf' heqt hlen
          refine hleft (c :: pre') suf' (by rw [List.cons_append, heqt]) ?_
          simp only [List.length_cons]
          omega
        simp [lc_search, hm, hrec]

/-- C9 (amended): the derived locale is exactly the `[a-zA-Z-]` run of the
leftmost `/X/LC_MESSAGES` match in the path — `get_locale_by_path` returns
`X` precisely when the path decomposes around `/X/LC_MESSAGES` with `X` a
non-empty run of letters and hyphens and no earlier suffix of the path
matches the pattern; the search succeeds at all precisely when some such
match exists; and a path with no match raises the fatal locale error, which
aborts the whole push run before any request is issued — the remaining
files are not processed. -/
theorem c9_amended_locale_derivation :
    (∀ p X : String, get_locale_by_path p = .ok X ↔ LcValueProp p X) ∧
    (∀ p : String, (get_locale_by_path p).isOk = true ↔ LcMatchProp p) ∧
    (∀ (cfg : List (String × LocaleSettings))
        (service : String → List (List String) → Nat) (fs : FileSys) (ts : String)
        (f : String) (rest : List String),
      get_locale_by_path f = .error .localeError →
      handle_push cfg service fs ts (f :: rest) = (.error .localeError, [])) := by
  refine ⟨?_, ?_, ?_⟩
  · intro p X
    constructor
    · intro h
      rcases hs : lc_search p.data with _ | x
      · simp only [get_locale_by_path, hs] at h
        exact Except.noConfusion h
      · simp only [get_locale_by_path, hs, Except.ok.injEq] at h
        subst h
        exact (lc_search_value p.data x).mp hs
    · intro hv
      have hs := (lc_search_value p.data X).mpr hv
      simp [get_locale_by_path, hs]
  · intro p
    constructor
    · intro h
      have h1 : (lc_search p.data).isSome = true := by
        rcases hs : lc_search p.data with _ | x
        · simp only [get_locale_by_path, hs] at h
          simp [Except.isOk, Except.toBool] at h
        · simp
      obtain ⟨pre, suf, heq, hm⟩ := (lc_search_isSome_iff p.data).mp h1
      obtain ⟨X, post, hsuf, hX, hall⟩ := (lc_match_at_isSome_iff suf).mp hm
      exact ⟨pre, X, post, by rw [heq, hsuf], hX, hall⟩
    · rintro ⟨pre, X, post, heq, hX, hall⟩
      have hm : (lc_match_at ('/' :: (X ++ ("/LC_MESSAGES".data ++ post)))).isSome
          = true :=
        (lc_match_at_isSome_iff _).mpr ⟨X, post, rfl, hX, hall⟩
      have h1 : (lc_search p.data).isSome = true :=
        (lc_search_isSome_iff p.data).mpr ⟨pre, _, heq, hm⟩
      rcases hs : lc_search p.data with _ | x
      · rw [hs] at h1
        simp at h1
      · simp [get_locale_by_path, hs, Except.isOk, Except.toBool]
  · intro cfg service fs ts f rest hf
    simp only [handle_push, push_files, hf]

/-- Witness for C9 (amended): the locale derived for a well-formed path is
exactly its `/X/LC_MESSAGES` run, and a run whose first file has a
non-matching path aborts with no request issued. -/
theorem c9_amended_locale_derivation_witness :
    LcValueProp "/l/en/LC_MESSAGES/a.po" "en" ∧
    handle_push [] (fun _ _ => 0) [] "ts" ["/l/pt_BR/LC_MESSAGES/a.po"]
      = (.error .localeError, []) :=
  ⟨(c9_amended_locale_derivation.1 "/l/en/LC_MESSAGES/a.po" "en").mp (by decide),
   c9_amended_locale_derivation.2.2 [] (fun _ _ => 0) [] "ts"
     "/l/pt_BR/LC_MESSAGES/a.po" [] (by decide)⟩

/-- C5: for every fatal error raised during a pull run — `EntryNotFoundError`
from the locator, `TemplateMismatchError` from reverse-template extraction,
and every `KeyError`/`IndexError`/`IOError`-style failure raised while
processing chunks (missing `msgid` mapping, unmapped field in the rewriter,
unknown file name, missing file at open), as well as configuration failures
and the loop bound — every non-temporary path is left untouched: no `.old`
rotation and nothing renamed over an original (first disjunct).  The only
other possibility is that the error was raised by the promotion loop itself,
which runs only after the chunk loop has processed every chunk to completion
and which starts from a state where every non-temporary path is still
untouched (second disjunct); in a real run that loop cannot fail, since every
name it looks up was put into the handle map from a successful `pathMap`
lookup and every file it renames exists. -/
theorem c5_pull_abort_preserves_originals :
    ∀ (chunk_size : Nat) (settings : LocaleSettings)
      (pathMap : List (String × String))
      (sheetData : String → Option (List (List String)))
      (fs : FileSys) (fuel : Nat) (e : PErr),
      (pull_by_locale chunk_size settings pathMap sheetData fs fuel).1 = .error e →
      (∀ n, tmp_name n = false →
        dict_get (pull_by_locale chunk_size settings pathMap sheetData fs fuel).2 n
          = dict_get fs n) ∨
      (∃ (cm : List (String × Nat)) (fnc : Nat) (col : Column) (template : String)
          (fs' : FileSys) (hm' : List (String × Handles)),
        get_column_mapping settings.columns = .ok cm ∧
        dict_get cm "_file_name" = some fnc ∧
        settings.columns.get? fnc = some col ∧
        col.static = some template ∧
        pull_loop pathMap cm template settings.sheet chunk_size
          (get_column_string (1 + settings.column_offset).toNat)
          (get_column_string
            (1 + settings.column_offset + (settings.columns.length : Int) - 1).toNat)
          sheetData fuel (1 + settings.row_offset + 1) fs []
          = (.ok (), fs', hm') ∧
        (∀ n, tmp_name n = false → dict_get fs' n = dict_get fs n) ∧
        promote_all pathMap hm' fs'
          = .error (e,
              (pull_by_locale chunk_size settings pathMap sheetData fs fuel).2)) := by
  intro chunk_size settings pathMap sheetData fs fuel e herr
  rcases h1 : get_column_mapping settings.columns with e1 | cm
  · refine Or.inl (fun n hn => ?_)
    simp only [pull_by_locale, h1]
  · rcases h2 : dict_get cm "_file_name" with _ | fnc
    · refine Or.inl (fun n hn => ?_)
      simp only [pull_by_locale, h1, h2]
    · rcases h3 : settings.columns.get? fnc with _ | col
      · refine Or.inl (fun n hn => ?_)
        simp only [pull_by_locale, h1, h2, h3]
      · rcases h4 : col.static with _ | template
        · refine Or.inl (fun n hn => ?_)
          simp only [pull_by_locale, h1, h2, h3, h4]
        · have hloop := pull_loop_nta pathMap cm template settings.sheet chunk_size
            (get_column_string (1 + settings.column_offset).toNat)
            (get_column_string
              (1 + settings.column_offset + (settings.columns.length : Int) - 1).toNat)
            sheetData fuel (1 + settings.row_offset + 1) fs []
          rcases h5 : pull_loop pathMap cm template settings.sheet chunk_size
              (get_column_string (1 + settings.column_offset).toNat)
              (get_column_string
                (1 + settings.column_offset + (settings.columns.length : Int) - 1).toNat)
              sheetData fuel (1 + settings.row_offset + 1) fs []
            with ⟨res, fs', hm'⟩
          rw [h5] at hloop
          rcases res with e' | u
          · refine Or.inl (fun n hn => ?_)
            simp only [pull_by_locale, h1, h2, h3, h4, h5]
            exact hloop n hn
          · rcases h6 : promote_all pathMap hm' fs' with ⟨e2, fs''⟩ | fs''
            · have he2 : e2 = e := by
                simp only [pull_by_locale, h1, h2, h3, h4, h5, h6] at herr
                simpa using herr
              have hres2 :
                  (pull_by_locale chunk_size settings pathMap sheetData fs fuel).2
                    = fs'' := by
                simp only [pull_by_locale, h1, h2, h3, h4, h5, h6]
              refine Or.inr ⟨cm, fnc, col, template, fs', hm', rfl, h2, h3, h4,
                h5, fun n hn => hloop n hn, ?_⟩
              rw [h6, he2, hres2]
            · simp only [pull_by_locale, h1, h2, h3, h4, h5, h6] at herr
              exact Except.noConfusion herr

/-- Witness for C5: a pull whose configuration lacks the file-name column
aborts with `configError` and leaves the original catalog untouched. -/
theorem c5_pull_abort_preserves_originals_witness :
    dict_get
      (pull_by_locale 5 ⟨"S", 0, 0, [⟨"ID", some ["msgid"], none⟩]⟩
        [("a.po", "a.po")] (fun _ => none)
        [("a.po", ["msgid \"\"", "msgstr \"\""])] 3).2 "a.po"
      = dict_get [("a.po", ["msgid \"\"", "msgstr \"\""])] "a.po" := by
  have h := c5_pull_abort_preserves_originals 5
      ⟨"S", 0, 0, [⟨"ID", some ["msgid"], none⟩]⟩
      [("a.po", "a.po")] (fun _ => none)
      [("a.po", ["msgid \"\"", "msgstr \"\""])] 3 .configError (by decide)
  rcases h with h | ⟨cm, fnc, col, template, fs', hm', hcm, -, -, -, -, -, -⟩
  · exact h "a.po" (by decide)
  · have hc : get_column_mapping
        (⟨"S", 0, 0, [⟨"ID", some ["msgid"], none⟩]⟩ : LocaleSettings).columns
        = .error .configError := by decide
    rw [hc] at hcm
    exact Except.noConfusion hcm
